import Mathlib

/-!
# LevelDB `Arena` (util/arena.h, util/arena.cc)

A shallow embedding of the bump-pointer arena allocator and a verification of
its specification.

Modelling conventions.

* `size_t` / `uintptr_t` values are natural numbers below `2 ^ w`, where
  `w = 8 * sizeof(void*)`; every `size_t` operation of the source is taken
  modulo `2 ^ w` (`wadd`, `wsub`, `toSizeT`).
* A `char*` is an address (a natural number).  Pointer arithmetic `p + n` is
  address addition; `reinterpret_cast<uintptr_t>(p)` reduces modulo `2 ^ w`.
* `new char[n]` is an oracle (`MemorySource`): it is handed the blocks the
  arena already owns and the requested size and answers the base address of
  the new block.  What the theorems need of it (disjointness, alignment) is
  stated as hypotheses.
* `blocks_` is a `std::vector<char*>` in the source; the model additionally
  remembers, next to each base address, the size that was passed to
  `new char[...]` (ghost data, never read by the code).
* `assert` is live (debug build): a failing assertion makes the operation
  return `none`.
* `~Arena()` is modelled by the list of pointers it passes to `delete[]`
  (`Arena.destruct`); the allocation operations contain no `delete[]` and
  release nothing.
-/

namespace leveldb

/-- Target platform: `ptrSize` is `sizeof(void*)` (also `sizeof(char*)` and
`sizeof(size_t)`) in bytes. -/
structure Target where
  ptrSize : Nat
deriving DecidableEq, Repr

/-- Number of values of a machine word: `2 ^ w` with `w = 8 * sizeof(void*)`. -/
def Target.wordMod (t : Target) : Nat := 2 ^ (8 * t.ptrSize)

/-- Conversion of a non-negative integer to `size_t`. -/
def toSizeT (t : Target) (n : Nat) : Nat := n % t.wordMod

/-- Addition of two `size_t` values. -/
def wadd (t : Target) (a b : Nat) : Nat := (a + b) % t.wordMod

/-- Subtraction of two `size_t` values (wraps around on underflow). -/
def wsub (t : Target) (a b : Nat) : Nat :=
  (a % t.wordMod + (t.wordMod - b % t.wordMod)) % t.wordMod

/-- Source constant `static const int kBlockSize = 4096;`. -/
def kBlockSize : Nat := 4096

/-- A contiguous range of addresses `[base, base + size)`. Used both for the
blocks owned by the arena and for the regions handed to callers. -/
structure Region where
  base : Nat
  size : Nat
deriving DecidableEq, Repr

/-- One past the last address of a region. -/
def Region.stop (r : Region) : Nat := r.base + r.size

/-- Region `r` lies entirely inside region `b`. -/
def Region.Inside (r b : Region) : Prop := b.base ≤ r.base ∧ r.stop ≤ b.stop

/-- Two regions share no address. -/
def Region.Disjoint (r q : Region) : Prop := r.stop ≤ q.base ∨ q.stop ≤ r.base

instance (r b : Region) : Decidable (r.Inside b) := by
  unfold Region.Inside; infer_instance

instance (r q : Region) : Decidable (r.Disjoint q) := by
  unfold Region.Disjoint; infer_instance

/-- The memory source behind `new char[n]`: given the blocks already owned and
the requested size, the base address of the new block. -/
abbrev MemorySource := List Region → Nat → Nat

/-- Fields of `class Arena`. -/
structure Arena where
  alloc_ptr_ : Nat
  alloc_bytes_remaining_ : Nat
  blocks_ : List Region
  memory_usage_ : Nat
deriving DecidableEq, Repr

namespace Arena

/-- The constructor `Arena::Arena()`: `memory_usage_(0)`, `alloc_ptr_ = NULL`,
`alloc_bytes_remaining_ = 0`, empty `blocks_`. -/
def construct : Arena := ⟨0, 0, [], 0⟩

/-- `Arena::MemoryUsage()`. -/
def MemoryUsage (s : Arena) : Nat := s.memory_usage_

/-- `Arena::AllocateNewBlock(block_bytes)`. -/
def AllocateNewBlock (t : Target) (src : MemorySource) (s : Arena)
    (block_bytes : Nat) : Nat × Arena :=
  let result := src s.blocks_ block_bytes
  (result,
    { s with
      blocks_ := s.blocks_ ++ [⟨result, block_bytes⟩]
      memory_usage_ := wadd t (wadd t s.MemoryUsage block_bytes) (toSizeT t t.ptrSize) })

/-- `Arena::AllocateFallback(bytes)`. -/
def AllocateFallback (t : Target) (src : MemorySource) (s : Arena)
    (bytes : Nat) : Nat × Arena :=
  if bytes > toSizeT t (kBlockSize / 4) then
    AllocateNewBlock t src s bytes
  else
    let nb := AllocateNewBlock t src s (toSizeT t kBlockSize)
    let s1 : Arena :=
      { nb.2 with alloc_ptr_ := nb.1, alloc_bytes_remaining_ := toSizeT t kBlockSize }
    let result := s1.alloc_ptr_
    (result,
      { s1 with
        alloc_ptr_ := s1.alloc_ptr_ + bytes
        alloc_bytes_remaining_ := wsub t s1.alloc_bytes_remaining_ bytes })

/-- `Arena::Allocate(bytes)`; `none` is the failing `assert(bytes > 0)`. -/
def Allocate (t : Target) (src : MemorySource) (s : Arena)
    (bytes : Nat) : Option (Nat × Arena) :=
  if ¬ (bytes > 0) then none
  else if bytes ≤ s.alloc_bytes_remaining_ then
    let result := s.alloc_ptr_
    some (result,
      { s with
        alloc_ptr_ := s.alloc_ptr_ + bytes
        alloc_bytes_remaining_ := wsub t s.alloc_bytes_remaining_ bytes })
  else
    some (AllocateFallback t src s bytes)

/-- The constant `align` of `AllocateAligned`:
`(sizeof(void*) > 8) ? sizeof(void*) : 8`. -/
def align (t : Target) : Nat := if t.ptrSize > 8 then t.ptrSize else 8

/-- The padding `slop` computed by `AllocateAligned` for cursor address `p`. -/
def slop (t : Target) (p : Nat) : Nat :=
  let current_mod := (p % t.wordMod) &&& (align t - 1)
  if current_mod = 0 then 0 else wsub t (toSizeT t (align t)) current_mod

/-- `Arena::AllocateAligned(bytes)`; `none` is a failing assertion (the
power-of-two check on `align`, or the final alignment check on `result`). -/
def AllocateAligned (t : Target) (src : MemorySource) (s : Arena)
    (bytes : Nat) : Option (Nat × Arena) :=
  if ¬ ((align t &&& (align t - 1)) = 0) then none
  else
    let needed := wadd t bytes (slop t s.alloc_ptr_)
    let r : Nat × Arena :=
      if needed ≤ s.alloc_bytes_remaining_ then
        (s.alloc_ptr_ + slop t s.alloc_ptr_,
          { s with
            alloc_ptr_ := s.alloc_ptr_ + needed
            alloc_bytes_remaining_ := wsub t s.alloc_bytes_remaining_ needed })
      else
        AllocateFallback t src s bytes
    if ¬ (((r.1 % t.wordMod) &&& (align t - 1)) = 0) then none
    else some r

end Arena

/-- One call of the public allocation interface. -/
inductive Call where
  | allocate (bytes : Nat)
  | allocateAligned (bytes : Nat)
deriving DecidableEq, Repr

/-- The byte count requested by a call. -/
def Call.bytes : Call → Nat
  | .allocate n => n
  | .allocateAligned n => n

/-- Execute one call. -/
def step (t : Target) (src : MemorySource) (s : Arena) : Call → Option (Nat × Arena)
  | .allocate n => s.Allocate t src n
  | .allocateAligned n => s.AllocateAligned t src n

/-- Execute a sequence of calls from state `s`; the result is the final state
and the regions `[p_i, p_i + n_i)` returned, in call order. `none` if some call
hits a failing assertion. -/
def run (t : Target) (src : MemorySource) : Arena → List Call → Option (Arena × List Region)
  | s, [] => some (s, [])
  | s, c :: cs =>
    match step t src s c with
    | none => none
    | some (p, s1) =>
      match run t src s1 cs with
      | none => none
      | some (s2, rs) => some (s2, ⟨p, c.bytes⟩ :: rs)

/-- A 64-bit target (`sizeof(void*) = 8`). -/
def target64 : Target := ⟨8⟩

/-- A 32-bit target (`sizeof(void*) = 4`). -/
def target32 : Target := ⟨4⟩

/-- A concrete memory source: a bump allocator that places every new block at
a 16-byte aligned address above all blocks already owned. -/
def bumpSource : MemorySource :=
  fun bs _ => 16 * (bs.foldr (fun b acc => max b.stop acc) 0 + 1)

/-- A real target: `sizeof(void*)` is a power of two and at least 2 bytes (so
that `int` and `size_t` hold `kBlockSize`). -/
def Target.Valid (t : Target) : Prop := ∃ k, 1 ≤ k ∧ t.ptrSize = 2 ^ k

/-- The `size_t` fields of an arena state hold `size_t` values. -/
def Arena.WellTyped (t : Target) (s : Arena) : Prop :=
  s.alloc_bytes_remaining_ < t.wordMod ∧ s.memory_usage_ < t.wordMod

instance (t : Target) (s : Arena) : Decidable (s.WellTyped t) := by
  unfold Arena.WellTyped; infer_instance

/-- The memory source supplies pairwise disjoint blocks: a new block never
overlaps a block that is already owned. -/
def DisjointSource (src : MemorySource) : Prop :=
  ∀ (bs : List Region) (n : Nat), ∀ b ∈ bs, Region.Disjoint ⟨src bs n, n⟩ b

/-- The memory source returns base addresses that are multiples of `align`. -/
def AlignedSource (t : Target) (src : MemorySource) : Prop :=
  ∀ (bs : List Region) (n : Nat), src bs n % Arena.align t = 0

/-- Sum of the byte counts requested by a sequence of calls. -/
def requested (cs : List Call) : Nat := (cs.map Call.bytes).sum

/-- A state reached on `target64` with `bumpSource` by one `Allocate(100)`:
one 4096-byte block at address 16, of which 100 bytes are carved. -/
def stateAfter100 : Arena := ⟨116, 3996, [⟨16, 4096⟩], 4104⟩

/-- A state reached on `target64` with `bumpSource` by `Allocate(4000)`
and then `Allocate(1)`: the cursor is not aligned. -/
def stateUnaligned : Arena := ⟨64273, 4095, [⟨16, 4000⟩, ⟨64272, 4096⟩], 8112⟩

/-- The state reached on `target64` with `bumpSource` by `Allocate(1)`: one
4096-byte block at address 16, cursor 17, 4095 bytes remaining. -/
def stateAfter1 : Arena := ⟨17, 4095, [⟨16, 4096⟩], 4104⟩

/-- The cursor window `[alloc_ptr_, alloc_ptr_ + alloc_bytes_remaining_)`. -/
def Arena.window (s : Arena) : Region := ⟨s.alloc_ptr_, s.alloc_bytes_remaining_⟩

/-- Soundness invariant of an arena state `s` relative to a list `regs` of
regions that must stay untouched (the regions handed out so far): the owned
blocks are pairwise disjoint, the regions are pairwise disjoint, each region
lies inside one owned block, and the cursor window is either empty or lies
inside one owned block and meets none of the regions. -/
def Inv (s : Arena) (regs : List Region) : Prop :=
  s.blocks_.Pairwise Region.Disjoint ∧
  regs.Pairwise Region.Disjoint ∧
  (∀ r ∈ regs, ∃ b ∈ s.blocks_, r.Inside b) ∧
  (s.alloc_bytes_remaining_ = 0 ∨
    ((∃ b ∈ s.blocks_, s.window.Inside b) ∧ ∀ r ∈ regs, s.window.Disjoint r))

/-- Total payload of a list of blocks. -/
def blockBytes (bs : List Region) : Nat := (bs.map Region.size).sum

/-- What the usage counter accounts for: for every owned block its size plus
`sizeof(char*)`. -/
def usageOf (t : Target) (bs : List Region) : Nat := blockBytes bs + t.ptrSize * bs.length

/-- Accounting invariant relative to the number `req` of bytes requested so
far: the remaining capacity is a `size_t`, the requested bytes and the
remaining capacity together fit in the payload of the owned blocks, and the
usage counter is `usageOf` of the owned blocks modulo the machine word. -/
def Acc (t : Target) (s : Arena) (req : Nat) : Prop :=
  s.alloc_bytes_remaining_ < t.wordMod ∧
  req + s.alloc_bytes_remaining_ ≤ blockBytes s.blocks_ ∧
  s.memory_usage_ = usageOf t s.blocks_ % t.wordMod

/-- The destructor `Arena::~Arena()`: the pointers handed to `delete[]`, in
loop order `blocks_[0], blocks_[1], ...`. -/
def Arena.destruct (s : Arena) : List Nat := s.blocks_.map Region.base

/-- Whether a call, started in state `s`, reaches the second branch of
`AllocateFallback`, the one that runs `AllocateNewBlock(kBlockSize)` and moves
the cursor into the new full-size block: the fit test fails and the request is
not above `kBlockSize / 4`. -/
def opensFullBlock (t : Target) (s : Arena) : Call → Bool
  | .allocate n =>
    decide (¬ n ≤ s.alloc_bytes_remaining_ ∧ ¬ n > toSizeT t (kBlockSize / 4))
  | .allocateAligned n =>
    decide (¬ wadd t n (Arena.slop t s.alloc_ptr_) ≤ s.alloc_bytes_remaining_ ∧
      ¬ n > toSizeT t (kBlockSize / 4))

/-- Ghost bookkeeping along a run: the full-size block created most recently
(`g` is the one known before the run; `none` when there is none yet). -/
def lastFullBlock (t : Target) (src : MemorySource) :
    Arena → Option Region → List Call → Option Region
  | _, g, [] => g
  | s, g, c :: cs =>
    match step t src s c with
    | none => g
    | some (_, s1) =>
      lastFullBlock t src s1
        (if opensFullBlock t s c then
          some ⟨src s.blocks_ (toSizeT t kBlockSize), toSizeT t kBlockSize⟩
        else g) cs

/-- The cursor invariant relative to the most recent full-size block `g`:
without one the cursor is null and nothing remains; with one, the block is
owned, has `kBlockSize` bytes, and the cursor window ends exactly at its end. -/
def CursorInv (s : Arena) : Option Region → Prop
  | none => s.alloc_ptr_ = 0 ∧ s.alloc_bytes_remaining_ = 0
  | some b => b ∈ s.blocks_ ∧ b.size = kBlockSize ∧ b.base ≤ s.alloc_ptr_ ∧
      s.alloc_ptr_ + s.alloc_bytes_remaining_ = b.base + kBlockSize

/-! ## Machine arithmetic -/

theorem target64_valid : target64.Valid := ⟨3, by decide, rfl⟩

theorem target32_valid : target32.Valid := ⟨2, by decide, rfl⟩

theorem Target.Valid.two_le {t : Target} (hv : t.Valid) : 2 ≤ t.ptrSize := by
  obtain ⟨k, hk, hp⟩ := id hv
  rw [hp]
  calc 2 = 2 ^ 1 := rfl
    _ ≤ 2 ^ k := Nat.pow_le_pow_right (by decide) hk

theorem Target.Valid.wordMod_ge {t : Target} (hv : t.Valid) : 65536 ≤ t.wordMod := by
  have h2 := hv.two_le
  unfold Target.wordMod
  calc 65536 = 2 ^ 16 := rfl
    _ ≤ 2 ^ (8 * t.ptrSize) := Nat.pow_le_pow_right (by decide) (by omega)

theorem ptrSize_lt_wordMod (t : Target) : t.ptrSize < t.wordMod := by
  unfold Target.wordMod
  calc t.ptrSize < 2 ^ t.ptrSize := Nat.lt_two_pow _
    _ ≤ 2 ^ (8 * t.ptrSize) := Nat.pow_le_pow_right (by decide) (by omega)

theorem Target.Valid.align_pow {t : Target} (hv : t.Valid) :
    ∃ j, 3 ≤ j ∧ j ≤ 8 * t.ptrSize ∧ Arena.align t = 2 ^ j := by
  have h2 := hv.two_le
  obtain ⟨k, hk, hp⟩ := hv
  by_cases h : k ≤ 3
  · refine ⟨3, le_refl _, by omega, ?_⟩
    have : t.ptrSize ≤ 2 ^ 3 := hp ▸ Nat.pow_le_pow_right (by decide) h
    unfold Arena.align
    rw [if_neg (by omega)]
    rfl
  · have h4 : 2 ^ 4 ≤ t.ptrSize := hp ▸ Nat.pow_le_pow_right (by decide) (by omega)
    have hk2 : k < 2 ^ k := Nat.lt_two_pow k
    refine ⟨k, by omega, by omega, ?_⟩
    unfold Arena.align
    rw [if_pos (by omega), hp]

theorem align_pos (t : Target) : 8 ≤ Arena.align t := by
  unfold Arena.align; split <;> omega

theorem Target.Valid.align_dvd {t : Target} (hv : t.Valid) : Arena.align t ∣ t.wordMod := by
  obtain ⟨j, _, hj, ha⟩ := hv.align_pow
  rw [ha]
  exact Nat.pow_dvd_pow 2 hj

theorem Target.Valid.align_lt {t : Target} (hv : t.Valid) : Arena.align t < t.wordMod := by
  have := ptrSize_lt_wordMod t
  have := hv.wordMod_ge
  unfold Arena.align; split <;> omega

/-- The power-of-two assertion of `AllocateAligned` holds on a real target. -/
theorem Target.Valid.align_and {t : Target} (hv : t.Valid) :
    (Arena.align t &&& (Arena.align t - 1)) = 0 := by
  obtain ⟨j, _, _, ha⟩ := hv.align_pow
  rw [ha, Nat.and_pow_two_sub_one_eq_mod, Nat.mod_self]

/-- Masking an address with `align - 1` is the remainder modulo `align`. -/
theorem Target.Valid.mask_eq {t : Target} (hv : t.Valid) (p : Nat) :
    ((p % t.wordMod) &&& (Arena.align t - 1)) = p % Arena.align t := by
  have hd := hv.align_dvd
  obtain ⟨j, _, _, ha⟩ := hv.align_pow
  rw [ha, Nat.and_pow_two_sub_one_eq_mod, ← ha, Nat.mod_mod_of_dvd _ hd]

theorem toSizeT_of_lt {t : Target} {n : Nat} (h : n < t.wordMod) : toSizeT t n = n :=
  Nat.mod_eq_of_lt h

theorem Target.Valid.toSizeT_kBlockSize {t : Target} (hv : t.Valid) :
    toSizeT t kBlockSize = 4096 := by
  have := hv.wordMod_ge
  exact toSizeT_of_lt (by unfold kBlockSize; omega)

theorem Target.Valid.toSizeT_quarter {t : Target} (hv : t.Valid) :
    toSizeT t (kBlockSize / 4) = 1024 := by
  have := hv.wordMod_ge
  exact toSizeT_of_lt (by unfold kBlockSize; omega)

theorem wadd_of_lt {t : Target} {a b : Nat} (h : a + b < t.wordMod) : wadd t a b = a + b :=
  Nat.mod_eq_of_lt h

theorem wadd_lt {t : Target} (hv : t.Valid) (a b : Nat) : wadd t a b < t.wordMod :=
  Nat.mod_lt _ (by have := hv.wordMod_ge; omega)

/-- A `size_t` subtraction that does not underflow is exact. -/
theorem wsub_of_le {t : Target} {a b : Nat} (ha : a < t.wordMod) (hb : b ≤ a) :
    wsub t a b = a - b := by
  unfold wsub
  rw [Nat.mod_eq_of_lt ha, Nat.mod_eq_of_lt (lt_of_le_of_lt hb ha)]
  have e : a + (t.wordMod - b) = (a - b) + t.wordMod := by omega
  rw [e, Nat.add_mod_right, Nat.mod_eq_of_lt (by omega)]

/-- The usage counter after one more block, when it does not wrap. -/
theorem usage_step {t : Target} {u n : Nat} (h : u + n + t.ptrSize < t.wordMod) :
    wadd t (wadd t u n) (toSizeT t t.ptrSize) = u + n + t.ptrSize := by
  rw [toSizeT_of_lt (ptrSize_lt_wordMod t), wadd_of_lt (a := u) (by omega), wadd_of_lt h]

theorem Target.Valid.wordMod_ge_mul {t : Target} (hv : t.Valid) :
    16384 * t.ptrSize < t.wordMod := by
  have h2 := hv.two_le
  have h1 : t.ptrSize < 2 ^ t.ptrSize := Nat.lt_two_pow _
  have h3 : 2 ^ 14 ≤ 2 ^ (7 * t.ptrSize) := Nat.pow_le_pow_right (by decide) (by omega)
  have e : t.wordMod = 2 ^ (7 * t.ptrSize) * 2 ^ t.ptrSize := by
    unfold Target.wordMod
    rw [← Nat.pow_add]
    congr 1
    omega
  rw [e]
  calc 16384 * t.ptrSize < 16384 * 2 ^ t.ptrSize :=
        Nat.mul_lt_mul_of_pos_left h1 (by decide)
    _ ≤ 2 ^ (7 * t.ptrSize) * 2 ^ t.ptrSize := Nat.mul_le_mul_right _ h3

/-- The padding computed by `AllocateAligned`, in closed form. -/
theorem Target.Valid.slop_eq {t : Target} (hv : t.Valid) (p : Nat) :
    Arena.slop t p = (Arena.align t - p % Arena.align t) % Arena.align t := by
  have ha := align_pos t
  have hl := hv.align_lt
  have hm : p % Arena.align t < Arena.align t := Nat.mod_lt _ (by omega)
  unfold Arena.slop
  simp only [hv.mask_eq]
  split
  · next h => rw [h, Nat.sub_zero, Nat.mod_self]
  · next h =>
    rw [toSizeT_of_lt hl, wsub_of_le hl (le_of_lt hm)]
    exact (Nat.mod_eq_of_lt (by omega)).symm

theorem Target.Valid.slop_lt {t : Target} (hv : t.Valid) (p : Nat) :
    Arena.slop t p < Arena.align t := by
  rw [hv.slop_eq]
  exact Nat.mod_lt _ (by have := align_pos t; omega)

/-- The padded cursor is a multiple of `align`. -/
theorem Target.Valid.slop_aligned {t : Target} (hv : t.Valid) (p : Nat) :
    (p + Arena.slop t p) % Arena.align t = 0 := by
  have ha := align_pos t
  have hm : p % Arena.align t < Arena.align t := Nat.mod_lt _ (by omega)
  rw [hv.slop_eq]
  by_cases h : p % Arena.align t = 0
  · rw [h, Nat.sub_zero, Nat.mod_self, Nat.add_zero, h]
  · have hlt : Arena.align t - p % Arena.align t < Arena.align t := by omega
    have e : p + (Arena.align t - p % Arena.align t)
        = Arena.align t * (p / Arena.align t + 1) := by
      have := Nat.div_add_mod p (Arena.align t)
      rw [Nat.mul_add, Nat.mul_one]
      omega
    rw [Nat.mod_eq_of_lt hlt, e, Nat.mul_mod_right]

/-! ## The concrete memory source -/

theorem le_foldr_max_stop (bs : List Region) :
    ∀ b ∈ bs, b.stop ≤ bs.foldr (fun b acc => max b.stop acc) 0 := by
  induction bs with
  | nil => intro b hb; cases hb
  | cons a bs ih =>
    intro b hb
    rcases List.mem_cons.mp hb with h | h
    · subst h; exact le_max_left _ _
    · exact le_trans (ih b h) (le_max_right _ _)

theorem bumpSource_disjoint : DisjointSource bumpSource := by
  intro bs n b hb
  right
  have := le_foldr_max_stop bs b hb
  show b.stop ≤ 16 * (bs.foldr (fun b acc => max b.stop acc) 0 + 1)
  omega

theorem bumpSource_aligned64 : AlignedSource target64 bumpSource := by
  intro bs n
  show 16 * (bs.foldr (fun b acc => max b.stop acc) 0 + 1) % 8 = 0
  omega

/-! ## The operations, path by path -/

namespace Arena

/-- `Allocate` with a zero size fails its assertion. -/
theorem Allocate_zero (t : Target) (src : MemorySource) (s : Arena) :
    s.Allocate t src 0 = none := by
  simp [Allocate]

/-- `Allocate`, fast path. -/
theorem Allocate_fit (t : Target) (src : MemorySource) (s : Arena) (n : Nat)
    (hn : 0 < n) (hfit : n ≤ s.alloc_bytes_remaining_) :
    s.Allocate t src n = some (s.alloc_ptr_,
      { s with alloc_ptr_ := s.alloc_ptr_ + n
               alloc_bytes_remaining_ := wsub t s.alloc_bytes_remaining_ n }) := by
  unfold Allocate
  rw [if_neg (not_not_intro hn), if_pos hfit]

/-- `Allocate`, slow path. -/
theorem Allocate_nofit (t : Target) (src : MemorySource) (s : Arena) (n : Nat)
    (hn : 0 < n) (hfit : s.alloc_bytes_remaining_ < n) :
    s.Allocate t src n = some (s.AllocateFallback t src n) := by
  unfold Allocate
  rw [if_neg (not_not_intro hn), if_neg (by omega)]

/-- `AllocateFallback` for a request above a quarter of the block size. -/
theorem AllocateFallback_big {t : Target} (hv : t.Valid) (src : MemorySource) (s : Arena)
    (n : Nat) (hbig : 1024 < n) :
    s.AllocateFallback t src n = (src s.blocks_ n,
      { s with blocks_ := s.blocks_ ++ [⟨src s.blocks_ n, n⟩]
               memory_usage_ :=
                 wadd t (wadd t s.memory_usage_ n) (toSizeT t t.ptrSize) }) := by
  unfold AllocateFallback
  rw [hv.toSizeT_quarter, if_pos hbig]
  rfl

/-- `AllocateFallback` for a request of at most a quarter of the block size. -/
theorem AllocateFallback_small {t : Target} (hv : t.Valid) (src : MemorySource) (s : Arena)
    (n : Nat) (hsmall : n ≤ 1024) :
    s.AllocateFallback t src n = (src s.blocks_ 4096,
      { alloc_ptr_ := src s.blocks_ 4096 + n
        alloc_bytes_remaining_ := 4096 - n
        blocks_ := s.blocks_ ++ [⟨src s.blocks_ 4096, 4096⟩]
        memory_usage_ :=
          wadd t (wadd t s.memory_usage_ 4096) (toSizeT t t.ptrSize) }) := by
  have hw := hv.wordMod_ge
  unfold AllocateFallback
  rw [hv.toSizeT_quarter, if_neg (by omega), hv.toSizeT_kBlockSize]
  simp only [AllocateNewBlock, MemoryUsage]
  rw [wsub_of_le (by omega) (by omega)]

/-- `Allocate`, slow path with a fresh full-size block. -/
theorem Allocate_small {t : Target} (hv : t.Valid) (src : MemorySource)
    (s : Arena) (n : Nat) (hrem : s.alloc_bytes_remaining_ < n) (hsmall : n ≤ 1024) :
    s.Allocate t src n = some (src s.blocks_ 4096,
      ⟨src s.blocks_ 4096 + n, 4096 - n, s.blocks_ ++ [⟨src s.blocks_ 4096, 4096⟩],
        wadd t (wadd t s.memory_usage_ 4096) (toSizeT t t.ptrSize)⟩) := by
  rw [Allocate_nofit _ _ _ _ (by omega) hrem, AllocateFallback_small hv _ _ _ hsmall]

/-- `AllocateAligned`, fit path (the sum `bytes + slop` may have wrapped). -/
theorem AllocateAligned_fit {t : Target} (hv : t.Valid) (src : MemorySource) (s : Arena)
    (n : Nat) (hfit : wadd t n (slop t s.alloc_ptr_) ≤ s.alloc_bytes_remaining_) :
    s.AllocateAligned t src n = some (s.alloc_ptr_ + slop t s.alloc_ptr_,
      { s with
        alloc_ptr_ := s.alloc_ptr_ + wadd t n (slop t s.alloc_ptr_)
        alloc_bytes_remaining_ :=
          wsub t s.alloc_bytes_remaining_ (wadd t n (slop t s.alloc_ptr_)) }) := by
  unfold AllocateAligned
  rw [if_neg (not_not_intro hv.align_and)]
  simp only [if_pos hfit]
  rw [if_neg (not_not_intro (by rw [hv.mask_eq]; exact hv.slop_aligned _))]

/-- `AllocateAligned`, fallback path, when the memory source returns an
aligned block. -/
theorem AllocateAligned_nofit {t : Target} (hv : t.Valid) (src : MemorySource) (s : Arena)
    (n : Nat) (hfit : s.alloc_bytes_remaining_ < wadd t n (slop t s.alloc_ptr_))
    (hal : (s.AllocateFallback t src n).1 % align t = 0) :
    s.AllocateAligned t src n = some (s.AllocateFallback t src n) := by
  unfold AllocateAligned
  rw [if_neg (not_not_intro hv.align_and)]
  simp only [if_neg (not_le.mpr hfit)]
  rw [if_neg (not_not_intro (by rw [hv.mask_eq]; exact hal))]

end Arena

/-- The padded cursor is the least multiple of `align` at or above the cursor. -/
theorem Target.Valid.slop_least {t : Target} (hv : t.Valid) (p m : Nat)
    (hpm : p ≤ m) (hm : m % Arena.align t = 0) : p + Arena.slop t p ≤ m := by
  have ha := align_pos t
  have hr : p % Arena.align t < Arena.align t := Nat.mod_lt _ (by omega)
  rw [hv.slop_eq]
  by_cases h : p % Arena.align t = 0
  · rw [h, Nat.sub_zero, Nat.mod_self]; omega
  · have hlt : Arena.align t - p % Arena.align t < Arena.align t := by omega
    rw [Nat.mod_eq_of_lt hlt]
    obtain ⟨k, hk⟩ := Nat.dvd_of_mod_eq_zero hm
    have hp := Nat.div_add_mod p (Arena.align t)
    have hq : p / Arena.align t < k := by
      by_contra hcon
      have : Arena.align t * k ≤ Arena.align t * (p / Arena.align t) :=
        Nat.mul_le_mul_left _ (not_lt.mp hcon)
      omega
    have : Arena.align t * (p / Arena.align t + 1) ≤ Arena.align t * k :=
      Nat.mul_le_mul_left _ hq
    rw [Nat.mul_add, Nat.mul_one] at this
    omega

/-! ## Regions and the soundness invariant -/

theorem Region.Disjoint.symm {r q : Region} (h : r.Disjoint q) : q.Disjoint r :=
  Or.symm h

/-- Regions inside disjoint regions are disjoint. -/
theorem Region.Disjoint.of_inside {r q b c : Region} (hbc : b.Disjoint c)
    (hr : r.Inside b) (hq : q.Inside c) : r.Disjoint q := by
  unfold Region.Disjoint Region.Inside at *
  omega

theorem Region.inside_refl (b : Region) : b.Inside b := ⟨le_refl _, le_refl _⟩

/-- The invariant holds of a fresh arena with nothing handed out. -/
theorem Inv_construct : Inv Arena.construct [] := by
  refine ⟨List.Pairwise.nil, List.Pairwise.nil, ?_, Or.inl rfl⟩
  intro r h
  cases h

/-- Appending a region `q` to the protected list: what has to be shown. -/
theorem Inv_snoc {s : Arena} {regs : List Region} {q : Region}
    (hb : s.blocks_.Pairwise Region.Disjoint)
    (hr : regs.Pairwise Region.Disjoint)
    (hq : ∀ r ∈ regs, r.Disjoint q)
    (hin : ∀ r ∈ regs, ∃ b ∈ s.blocks_, r.Inside b)
    (hqin : ∃ b ∈ s.blocks_, q.Inside b)
    (hw : s.alloc_bytes_remaining_ = 0 ∨
      ((∃ b ∈ s.blocks_, s.window.Inside b) ∧
        (∀ r ∈ regs, s.window.Disjoint r) ∧ s.window.Disjoint q)) :
    Inv s (regs ++ [q]) := by
  refine ⟨hb, ?_, ?_, ?_⟩
  · refine List.pairwise_append.mpr ⟨hr, List.pairwise_singleton _ _, ?_⟩
    intro a ha b hb2
    rw [List.mem_singleton] at hb2
    subst hb2
    exact hq a ha
  · intro r hr2
    rcases List.mem_append.mp hr2 with h | h
    · exact hin r h
    · rw [List.mem_singleton] at h
      subst h
      exact hqin
  · rcases hw with h | ⟨h1, h2, h3⟩
    · exact Or.inl h
    · refine Or.inr ⟨h1, ?_⟩
      intro r hr2
      rcases List.mem_append.mp hr2 with h | h
      · exact h2 r h
      · rw [List.mem_singleton] at h
        subst h
        exact h3

/-- One `Allocate` call with a positive size preserves the invariant, the
returned region joining the protected list. -/
theorem Allocate_Inv {t : Target} (hv : t.Valid) {src : MemorySource}
    (hsrc : DisjointSource src) {s : Arena} {regs : List Region}
    (hwt : s.alloc_bytes_remaining_ < t.wordMod) (hinv : Inv s regs)
    {n : Nat} (hn : 0 < n) :
    ∃ p s1, s.Allocate t src n = some (p, s1) ∧ Inv s1 (regs ++ [⟨p, n⟩]) ∧
      s1.alloc_bytes_remaining_ < t.wordMod ∧
      ∃ l, s1.blocks_ = s.blocks_ ++ l := by
  obtain ⟨hb, hr, hin, hw⟩ := hinv
  have hww := hv.wordMod_ge
  by_cases hfit : n ≤ s.alloc_bytes_remaining_
  · -- fast path
    refine ⟨_, _, Arena.Allocate_fit t src s n hn hfit, ?_, ?_, ⟨[], by simp⟩⟩
    · rw [wsub_of_le hwt hfit]
      rcases hw with h0 | ⟨⟨b, hbm, hbin⟩, hdis⟩
      · omega
      · refine Inv_snoc hb hr ?_ ?_ ?_ ?_
        · intro r hr2
          have := hdis r hr2
          simp only [Region.Disjoint, Region.stop, Arena.window] at this ⊢
          omega
        · exact hin
        · refine ⟨b, hbm, ?_⟩
          simp only [Region.Inside, Region.stop, Arena.window] at hbin ⊢
          omega
        · refine Or.inr ⟨⟨b, hbm, ?_⟩, ?_, ?_⟩
          · simp only [Region.Inside, Region.stop, Arena.window] at hbin ⊢
            omega
          · intro r hr2
            have := hdis r hr2
            simp only [Region.Disjoint, Region.stop, Arena.window] at this ⊢
            omega
          · simp only [Region.Disjoint, Region.stop, Arena.window]
            omega
    · rw [wsub_of_le hwt hfit]
      show s.alloc_bytes_remaining_ - n < t.wordMod
      omega
  · have hnofit : s.alloc_bytes_remaining_ < n := by omega
    by_cases hbig : 1024 < n
    · -- dedicated block
      refine ⟨_, _, (Arena.Allocate_nofit t src s n hn hnofit).trans
        (congrArg some (Arena.AllocateFallback_big hv src s n hbig)), ?_, hwt, ?_⟩
      swap
      · exact ⟨_, rfl⟩
      have hnew : ∀ a ∈ s.blocks_, Region.Disjoint a ⟨src s.blocks_ n, n⟩ :=
        fun a ha => (hsrc s.blocks_ n a ha).symm
      have hb2 : List.Pairwise Region.Disjoint (s.blocks_ ++ [⟨src s.blocks_ n, n⟩]) := by
        refine List.pairwise_append.mpr ⟨hb, List.pairwise_singleton _ _, ?_⟩
        intro a ha c hc
        rw [List.mem_singleton] at hc
        subst hc
        exact hnew a ha
      refine Inv_snoc hb2 hr ?_ ?_ ?_ ?_
      · intro r hr2
        obtain ⟨b, hbm, hbin⟩ := hin r hr2
        exact (hnew b hbm).of_inside hbin (Region.inside_refl _)
      · intro r hr2
        obtain ⟨b, hbm, hbin⟩ := hin r hr2
        exact ⟨b, List.mem_append_left _ hbm, hbin⟩
      · exact ⟨_, List.mem_append_right _ (List.mem_singleton_self _), Region.inside_refl _⟩
      · rcases hw with h0 | ⟨⟨b, hbm, hbin⟩, hdis⟩
        · exact Or.inl h0
        · refine Or.inr ⟨⟨b, List.mem_append_left _ hbm, hbin⟩, hdis, ?_⟩
          exact (hnew b hbm).of_inside hbin (Region.inside_refl _)
    · -- fresh full-size block
      have hsmall : n ≤ 1024 := by omega
      refine ⟨_, _, (Arena.Allocate_nofit t src s n hn hnofit).trans
        (congrArg some (Arena.AllocateFallback_small hv src s n hsmall)), ?_, ?_, ?_⟩
      rotate_left
      · show 4096 - n < t.wordMod
        omega
      · exact ⟨_, rfl⟩
      · have hnew : ∀ a ∈ s.blocks_, Region.Disjoint a ⟨src s.blocks_ 4096, 4096⟩ :=
          fun a ha => (hsrc s.blocks_ 4096 a ha).symm
        have hb2 : List.Pairwise Region.Disjoint (s.blocks_ ++ [⟨src s.blocks_ 4096, 4096⟩]) := by
          refine List.pairwise_append.mpr ⟨hb, List.pairwise_singleton _ _, ?_⟩
          intro a ha c hc
          rw [List.mem_singleton] at hc
          subst hc
          exact hnew a ha
        have hsub : Region.Inside ⟨src s.blocks_ 4096, n⟩ ⟨src s.blocks_ 4096, 4096⟩ := by
          simp only [Region.Inside, Region.stop]
          omega
        have hwin : Region.Inside ⟨src s.blocks_ 4096 + n, 4096 - n⟩
            ⟨src s.blocks_ 4096, 4096⟩ := by
          simp only [Region.Inside, Region.stop]
          omega
        refine Inv_snoc hb2 hr ?_ ?_ ?_ ?_
        · intro r hr2
          obtain ⟨b, hbm, hbin⟩ := hin r hr2
          exact (hnew b hbm).of_inside hbin hsub
        · intro r hr2
          obtain ⟨b, hbm, hbin⟩ := hin r hr2
          exact ⟨b, List.mem_append_left _ hbm, hbin⟩
        · exact ⟨_, List.mem_append_right _ (List.mem_singleton_self _), hsub⟩
        · refine Or.inr ⟨⟨_, List.mem_append_right _ (List.mem_singleton_self _), hwin⟩, ?_, ?_⟩
          · intro r hr2
            obtain ⟨b, hbm, hbin⟩ := hin r hr2
            exact ((hnew b hbm).of_inside hbin hwin).symm
          · simp only [Region.Disjoint, Region.stop, Arena.window]
            omega

/-- A sequence of `Allocate` calls with positive sizes runs to completion and
preserves the invariant; the returned regions join the protected list and the
block list only grows. -/
theorem run_allocate_Inv {t : Target} (hv : t.Valid) {src : MemorySource}
    (hsrc : DisjointSource src) :
    ∀ (ns : List Nat) (s0 : Arena) (pre : List Region), (∀ n ∈ ns, 0 < n) →
      s0.alloc_bytes_remaining_ < t.wordMod → Inv s0 pre →
      ∃ s regs, run t src s0 (ns.map Call.allocate) = some (s, regs) ∧
        regs.map Region.size = ns ∧ Inv s (pre ++ regs) ∧
        s.alloc_bytes_remaining_ < t.wordMod ∧ ∃ l, s.blocks_ = s0.blocks_ ++ l := by
  intro ns
  induction ns with
  | nil =>
    intro s0 pre _ hwt hinv
    exact ⟨s0, [], rfl, rfl, by simpa using hinv, hwt, ⟨[], by simp⟩⟩
  | cons n ns ih =>
    intro s0 pre hpos hwt hinv
    obtain ⟨p, s1, h1, hinv1, hwt1, l1, hl1⟩ :=
      Allocate_Inv hv hsrc hwt hinv (hpos n (List.mem_cons_self _ _))
    obtain ⟨s2, regs, h2, hsz, hinv2, hwt2, l2, hl2⟩ :=
      ih s1 (pre ++ [⟨p, n⟩]) (fun m hm => hpos m (List.mem_cons_of_mem _ hm)) hwt1 hinv1
    refine ⟨s2, ⟨p, n⟩ :: regs, ?_, ?_, ?_, hwt2, ⟨l1 ++ l2, ?_⟩⟩
    · simp only [List.map_cons, run, step, h1, h2, Call.bytes]
    · simp only [List.map_cons, hsz]
    · simpa [List.append_assoc] using hinv2
    · rw [hl2, hl1, List.append_assoc]

/-- Unfolding `run` by one call. -/
theorem run_cons {t : Target} {src : MemorySource} {s s1 s2 : Arena} {c : Call}
    {cs : List Call} {p : Nat} {rs : List Region}
    (h1 : step t src s c = some (p, s1)) (h2 : run t src s1 cs = some (s2, rs)) :
    run t src s (c :: cs) = some (s2, ⟨p, c.bytes⟩ :: rs) := by
  simp only [run, h1, h2]

/-- The regions `p, p + n, ...` of `k + 1` consecutive carvings. -/
theorem region_range_shift (p n k : Nat) :
    (⟨p, n⟩ : Region) :: (List.range k).map (fun i => ⟨p + n + n * i, n⟩)
      = (List.range (k + 1)).map (fun i => ⟨p + n * i, n⟩) := by
  rw [List.range_succ_eq_map, List.map_cons, List.map_map]
  refine congrArg₂ List.cons rfl (List.map_congr_left ?_)
  intro i _
  show (⟨p + n + n * i, n⟩ : Region) = ⟨p + n * (i + 1), n⟩
  rw [Nat.mul_succ, Nat.add_assoc, Nat.add_comm n]

/-- A successful run of a non-empty call list splits into its first step and
the run of the rest. -/
theorem run_cons_inv {t : Target} {src : MemorySource} {s s2 : Arena} {c : Call}
    {cs : List Call} {regs : List Region} (h : run t src s (c :: cs) = some (s2, regs)) :
    ∃ p s1 rs, step t src s c = some (p, s1) ∧ run t src s1 cs = some (s2, rs) ∧
      regs = ⟨p, c.bytes⟩ :: rs := by
  simp only [run] at h
  cases h1 : step t src s c with
  | none => rw [h1] at h; cases h
  | some r1 =>
    obtain ⟨p, s1⟩ := r1
    rw [h1] at h
    cases h2 : run t src s1 cs with
    | none => simp [h2] at h
    | some r2 =>
      obtain ⟨s3, rs⟩ := r2
      simp only [h2, Option.some.injEq, Prod.mk.injEq] at h
      exact ⟨p, s1, rs, rfl, by rw [← h.1, h2], h.2.symm⟩

/-- Consecutive fast-path calls: `k` calls `Allocate(n)` on a state whose
remaining capacity holds `n * k` bytes return `p, p + n, ...` and touch only
the cursor. -/
theorem run_replicate_fit (t : Target) (src : MemorySource) (bl : List Region) (u n : Nat)
    (hn : 0 < n) :
    ∀ (k p rem : Nat), n * k ≤ rem → rem < t.wordMod →
      run t src ⟨p, rem, bl, u⟩ (List.replicate k (Call.allocate n))
        = some (⟨p + n * k, rem - n * k, bl, u⟩,
            (List.range k).map (fun i => ⟨p + n * i, n⟩)) := by
  intro k
  induction k with
  | zero => intro p rem _ _; rfl
  | succ k ih =>
    intro p rem hk hrem
    have hmul : n * (k + 1) = n + n * k := by rw [Nat.mul_succ, Nat.add_comm]
    have hfit : n ≤ rem := by omega
    have h1 : step t src ⟨p, rem, bl, u⟩ (Call.allocate n)
        = some (p, ⟨p + n, rem - n, bl, u⟩) := by
      show Arena.Allocate t src ⟨p, rem, bl, u⟩ n = _
      rw [Arena.Allocate_fit t src ⟨p, rem, bl, u⟩ n hn hfit]
      show some (p, (⟨p + n, wsub t rem n, bl, u⟩ : Arena)) = _
      rw [wsub_of_le hrem hfit]
    have h2 := ih (p + n) (rem - n) (by omega) (by omega)
    rw [List.replicate_succ, run_cons h1 h2]
    refine congrArg some (Prod.ext ?_ ?_)
    · show (⟨p + n + n * k, rem - n - n * k, bl, u⟩ : Arena)
        = ⟨p + n * (k + 1), rem - n * (k + 1), bl, u⟩
      rw [hmul, Nat.add_assoc, Nat.sub_sub]
    · exact region_range_shift p n k

/-- Every path of `AllocateAligned` returns normally with an aligned address,
whatever the state, when the memory source returns aligned blocks. -/
theorem AllocateAligned_returns_aligned {t : Target} (hv : t.Valid) (src : MemorySource)
    (hal : AlignedSource t src) (s : Arena) (n : Nat) :
    ∃ p s1, s.AllocateAligned t src n = some (p, s1) ∧ p % Arena.align t = 0 := by
  by_cases hfit : wadd t n (Arena.slop t s.alloc_ptr_) ≤ s.alloc_bytes_remaining_
  · exact ⟨_, _, Arena.AllocateAligned_fit hv src s n hfit, hv.slop_aligned _⟩
  · have hfb : (s.AllocateFallback t src n).1 % Arena.align t = 0 := by
      by_cases hbig : 1024 < n
      · rw [Arena.AllocateFallback_big hv src s n hbig]
        exact hal _ _
      · rw [Arena.AllocateFallback_small hv src s n (by omega)]
        exact hal _ _
    exact ⟨_, _, Arena.AllocateAligned_nofit hv src s n (by omega) hfb, hfb⟩

/-! ## Accounting -/

theorem blockBytes_snoc (bs : List Region) (b : Region) :
    blockBytes (bs ++ [b]) = blockBytes bs + b.size := by
  simp [blockBytes]

theorem usageOf_snoc (t : Target) (bs : List Region) (b : Region) :
    usageOf t (bs ++ [b]) = usageOf t bs + b.size + t.ptrSize := by
  unfold usageOf
  rw [blockBytes_snoc, List.length_append, List.length_singleton, Nat.mul_add, Nat.mul_one]
  omega

/-- The counter update of `AllocateNewBlock`, modulo the machine word. -/
theorem usage_mod (t : Target) (a n : Nat) :
    wadd t (wadd t (a % t.wordMod) n) (toSizeT t t.ptrSize)
      = (a + n + t.ptrSize) % t.wordMod := by
  unfold wadd toSizeT
  rw [Nat.add_mod_mod, Nat.mod_add_mod, Nat.add_assoc, Nat.mod_add_mod, Nat.add_assoc]

/-- The two ways `AllocateAligned` can return: the fit path or the fallback. -/
theorem Arena.AllocateAligned_cases {t : Target} {src : MemorySource} {s s1 : Arena}
    {n p : Nat} (h : s.AllocateAligned t src n = some (p, s1)) :
    (wadd t n (Arena.slop t s.alloc_ptr_) ≤ s.alloc_bytes_remaining_ ∧
      p = s.alloc_ptr_ + Arena.slop t s.alloc_ptr_ ∧
      s1 = ⟨s.alloc_ptr_ + wadd t n (Arena.slop t s.alloc_ptr_),
        wsub t s.alloc_bytes_remaining_ (wadd t n (Arena.slop t s.alloc_ptr_)),
        s.blocks_, s.memory_usage_⟩) ∨
    (s.alloc_bytes_remaining_ < wadd t n (Arena.slop t s.alloc_ptr_) ∧
      (p, s1) = s.AllocateFallback t src n) := by
  unfold Arena.AllocateAligned at h
  split at h
  · cases h
  · by_cases hfit : wadd t n (Arena.slop t s.alloc_ptr_) ≤ s.alloc_bytes_remaining_
    · simp only [if_pos hfit] at h
      split at h
      · cases h
      · injection h with h
        injection h with hp hs
        exact Or.inl ⟨hfit, hp.symm, hs.symm⟩
    · simp only [if_neg hfit] at h
      split at h
      · cases h
      · injection h with h
        exact Or.inr ⟨by omega, h.symm⟩

/-- `AllocateFallback` preserves the accounting invariant. -/
theorem AllocateFallback_Acc {t : Target} (hv : t.Valid) (src : MemorySource) {s : Arena}
    {req : Nat} (hacc : Acc t s req) (n : Nat) :
    Acc t (s.AllocateFallback t src n).2 (req + n) := by
  obtain ⟨h1, h2, h3⟩ := hacc
  have hw := hv.wordMod_ge
  by_cases hbig : 1024 < n
  · rw [Arena.AllocateFallback_big hv src s n hbig]
    refine ⟨h1, ?_, ?_⟩
    · show req + n + s.alloc_bytes_remaining_ ≤ blockBytes (s.blocks_ ++ [⟨_, n⟩])
      rw [blockBytes_snoc]
      show req + n + s.alloc_bytes_remaining_ ≤ blockBytes s.blocks_ + n
      omega
    · show wadd t (wadd t s.memory_usage_ n) (toSizeT t t.ptrSize)
        = usageOf t (s.blocks_ ++ [⟨_, n⟩]) % t.wordMod
      rw [h3, usage_mod, usageOf_snoc]
  · rw [Arena.AllocateFallback_small hv src s n (by omega)]
    refine ⟨?_, ?_, ?_⟩
    · show 4096 - n < t.wordMod
      omega
    · show req + n + (4096 - n) ≤ blockBytes (s.blocks_ ++ [⟨_, 4096⟩])
      rw [blockBytes_snoc]
      show req + n + (4096 - n) ≤ blockBytes s.blocks_ + 4096
      omega
    · show wadd t (wadd t s.memory_usage_ 4096) (toSizeT t t.ptrSize)
        = usageOf t (s.blocks_ ++ [⟨_, 4096⟩]) % t.wordMod
      rw [h3, usage_mod, usageOf_snoc]

/-- `AllocateFallback` appends exactly one block and adds that block's size
plus `sizeof(char*)` to the usage counter. -/
theorem AllocateFallback_blocks {t : Target} (hv : t.Valid) (src : MemorySource) (s : Arena)
    (n : Nat) :
    ∃ b, (s.AllocateFallback t src n).2.blocks_ = s.blocks_ ++ [b] ∧
      (s.AllocateFallback t src n).2.memory_usage_
        = wadd t (wadd t s.memory_usage_ b.size) (toSizeT t t.ptrSize) := by
  by_cases hbig : 1024 < n
  · rw [Arena.AllocateFallback_big hv src s n hbig]; exact ⟨_, rfl, rfl⟩
  · rw [Arena.AllocateFallback_small hv src s n (by omega)]; exact ⟨_, rfl, rfl⟩

/-- One call preserves the accounting invariant, provided an `AllocateAligned`
request leaves room for the padding below the word size; the block list only
grows. -/
theorem step_Acc {t : Target} (hv : t.Valid) (src : MemorySource) {s s1 : Arena}
    {req p : Nat} {c : Call} (hacc : Acc t s req) (hpos : 0 < c.bytes)
    (hroom : c.bytes + Arena.align t ≤ t.wordMod)
    (h : step t src s c = some (p, s1)) :
    Acc t s1 (req + c.bytes) ∧ ∃ l, s1.blocks_ = s.blocks_ ++ l := by
  have hw := hv.wordMod_ge
  cases c with
  | allocate n =>
    change 0 < n at hpos
    change Arena.Allocate t src s n = some (p, s1) at h
    show Acc t s1 (req + n) ∧ _
    by_cases hfit : n ≤ s.alloc_bytes_remaining_
    · rw [Arena.Allocate_fit t src s n hpos hfit] at h
      injection h with h
      injection h with _ hs
      subst hs
      obtain ⟨h1, h2, h3⟩ := hacc
      refine ⟨⟨?_, ?_, h3⟩, ⟨[], by simp⟩⟩
      · show wsub t s.alloc_bytes_remaining_ n < t.wordMod
        rw [wsub_of_le h1 hfit]; omega
      · show req + n + wsub t s.alloc_bytes_remaining_ n ≤ blockBytes s.blocks_
        rw [wsub_of_le h1 hfit]; omega
    · rw [Arena.Allocate_nofit t src s n hpos (by omega)] at h
      injection h with h
      have hs : s1 = (s.AllocateFallback t src n).2 := by rw [h]
      subst hs
      obtain ⟨b, hb, _⟩ := AllocateFallback_blocks hv src s n
      exact ⟨AllocateFallback_Acc hv src hacc n, ⟨[b], hb⟩⟩
  | allocateAligned n =>
    change 0 < n at hpos
    change n + Arena.align t ≤ t.wordMod at hroom
    change Arena.AllocateAligned t src s n = some (p, s1) at h
    show Acc t s1 (req + n) ∧ _
    have hsl := hv.slop_lt s.alloc_ptr_
    have hnw : wadd t n (Arena.slop t s.alloc_ptr_) = n + Arena.slop t s.alloc_ptr_ :=
      wadd_of_lt (by omega)
    rcases Arena.AllocateAligned_cases h with ⟨hfit, _, hs⟩ | ⟨_, hfb⟩
    · rw [hnw] at hfit hs
      subst hs
      obtain ⟨h1, h2, h3⟩ := hacc
      refine ⟨⟨?_, ?_, h3⟩, ⟨[], by simp⟩⟩
      · show wsub t s.alloc_bytes_remaining_ _ < t.wordMod
        rw [wsub_of_le h1 hfit]; omega
      · show req + n + wsub t s.alloc_bytes_remaining_ _ ≤ blockBytes s.blocks_
        rw [wsub_of_le h1 hfit]; omega
    · have hs : s1 = (s.AllocateFallback t src n).2 := by rw [← hfb]
      subst hs
      obtain ⟨b, hb, _⟩ := AllocateFallback_blocks hv src s n
      exact ⟨AllocateFallback_Acc hv src hacc n, ⟨[b], hb⟩⟩

/-- The accounting invariant along a run. -/
theorem run_Acc {t : Target} (hv : t.Valid) (src : MemorySource) :
    ∀ (cs : List Call) (s0 s : Arena) (req : Nat) (regs : List Region),
      (∀ c ∈ cs, 0 < c.bytes ∧ c.bytes + Arena.align t ≤ t.wordMod) →
      Acc t s0 req → run t src s0 cs = some (s, regs) →
      Acc t s (req + requested cs) ∧ ∃ l, s.blocks_ = s0.blocks_ ++ l := by
  intro cs
  induction cs with
  | nil =>
    intro s0 s req regs _ hacc hrun
    simp only [run, Option.some.injEq, Prod.mk.injEq] at hrun
    rw [← hrun.1]
    exact ⟨by simpa [requested] using hacc, ⟨[], by simp⟩⟩
  | cons c cs ih =>
    intro s0 s req regs hcs hacc hrun
    obtain ⟨p, s1, rs, h1, h2, _⟩ := run_cons_inv hrun
    have hc := hcs c (List.mem_cons_self _ _)
    obtain ⟨hacc1, l1, hl1⟩ := step_Acc hv src hacc hc.1 hc.2 h1
    obtain ⟨hacc2, l2, hl2⟩ := ih s1 s (req + c.bytes) rs
      (fun d hd => hcs d (List.mem_cons_of_mem _ hd)) hacc1 h2
    refine ⟨?_, ⟨l1 ++ l2, by rw [hl2, hl1, List.append_assoc]⟩⟩
    have e : req + requested (c :: cs) = req + c.bytes + requested cs := by
      simp [requested, Nat.add_assoc]
    rw [e]
    exact hacc2

theorem Acc_construct (t : Target) (hv : t.Valid) : Acc t Arena.construct 0 := by
  have hw := hv.wordMod_ge
  refine ⟨?_, ?_, ?_⟩
  · show 0 < t.wordMod
    omega
  · show 0 + 0 ≤ blockBytes []
    simp [blockBytes]
  · show 0 = usageOf t [] % t.wordMod
    simp [usageOf, blockBytes]

/-- As long as no `AllocateAligned` request comes within `align` of the word
size and the usage counter has not wrapped, `MemoryUsage()` is at least the
number of bytes requested. -/
theorem usage_ge_requested {t : Target} (hv : t.Valid) (src : MemorySource)
    (cs : List Call) (s : Arena) (regs : List Region)
    (hcs : ∀ c ∈ cs, 0 < c.bytes ∧ c.bytes + Arena.align t ≤ t.wordMod)
    (hrun : run t src Arena.construct cs = some (s, regs))
    (hnowrap : usageOf t s.blocks_ < t.wordMod) :
    requested cs ≤ s.MemoryUsage := by
  obtain ⟨⟨_, h2, h3⟩, _⟩ := run_Acc hv src cs _ _ 0 _ hcs (Acc_construct t hv) hrun
  show requested cs ≤ s.memory_usage_
  rw [h3, Nat.mod_eq_of_lt hnowrap]
  unfold usageOf
  omega

/-- One call either leaves block list and usage counter alone, or appends one
block and adds that block's size plus `sizeof(char*)` to the counter. -/
theorem step_usage {t : Target} (hv : t.Valid) (src : MemorySource) {s s1 : Arena}
    {p : Nat} {c : Call} (h : step t src s c = some (p, s1)) :
    (s1.blocks_ = s.blocks_ ∧ s1.memory_usage_ = s.memory_usage_) ∨
    ∃ b, s1.blocks_ = s.blocks_ ++ [b] ∧
      s1.memory_usage_ = wadd t (wadd t s.memory_usage_ b.size) (toSizeT t t.ptrSize) := by
  cases c with
  | allocate n =>
    change Arena.Allocate t src s n = some (p, s1) at h
    unfold Arena.Allocate at h
    split at h
    · cases h
    · split at h
      · injection h with h
        injection h with _ hs
        subst hs
        exact Or.inl ⟨rfl, rfl⟩
      · injection h with h
        have hs : s1 = (s.AllocateFallback t src n).2 := by rw [h]
        subst hs
        exact Or.inr (AllocateFallback_blocks hv src s n)
  | allocateAligned n =>
    change Arena.AllocateAligned t src s n = some (p, s1) at h
    rcases Arena.AllocateAligned_cases h with ⟨_, _, hs⟩ | ⟨_, hfb⟩
    · subst hs
      exact Or.inl ⟨rfl, rfl⟩
    · have hs : s1 = (s.AllocateFallback t src n).2 := by rw [← hfb]
      subst hs
      exact Or.inr (AllocateFallback_blocks hv src s n)

/-- Across one call `MemoryUsage()` does not decrease, unless the counter
update of a newly created block wraps around the machine word. -/
theorem usage_monotone {t : Target} (hv : t.Valid) (src : MemorySource) {s s1 : Arena}
    {p : Nat} {c : Call} (h : step t src s c = some (p, s1))
    (hnowrap : ∀ b, s1.blocks_ = s.blocks_ ++ [b] →
      s.memory_usage_ + b.size + t.ptrSize < t.wordMod) :
    s.MemoryUsage ≤ s1.MemoryUsage := by
  show s.memory_usage_ ≤ s1.memory_usage_
  rcases step_usage hv src h with ⟨_, hu⟩ | ⟨b, hb, hu⟩
  · rw [hu]
  · rw [hu, usage_step (hnowrap b hb)]
    omega

/-! ## The three outcomes of a call -/

/-- Every call that returns took one of three paths: it was served from the
cursor window (consuming `k <= remaining` bytes), it got a dedicated block of
exactly its size, or it opened a fresh full-size block. -/
theorem step_cases {t : Target} (hv : t.Valid) (src : MemorySource) {s s1 : Arena}
    {p : Nat} {c : Call} (hwt : s.alloc_bytes_remaining_ < t.wordMod)
    (h : step t src s c = some (p, s1)) :
    (∃ k, k ≤ s.alloc_bytes_remaining_ ∧ s.alloc_ptr_ ≤ p ∧ opensFullBlock t s c = false ∧
      s1 = ⟨s.alloc_ptr_ + k, s.alloc_bytes_remaining_ - k, s.blocks_, s.memory_usage_⟩) ∨
    (1024 < c.bytes ∧ opensFullBlock t s c = false ∧ p = src s.blocks_ c.bytes ∧
      s1 = ⟨s.alloc_ptr_, s.alloc_bytes_remaining_, s.blocks_ ++ [⟨p, c.bytes⟩],
        wadd t (wadd t s.memory_usage_ c.bytes) (toSizeT t t.ptrSize)⟩) ∨
    (c.bytes ≤ 1024 ∧ opensFullBlock t s c = true ∧ p = src s.blocks_ 4096 ∧
      s1 = ⟨p + c.bytes, 4096 - c.bytes, s.blocks_ ++ [⟨p, 4096⟩],
        wadd t (wadd t s.memory_usage_ 4096) (toSizeT t t.ptrSize)⟩) := by
  have hq := hv.toSizeT_quarter
  have fb : ∀ n, (p, s1) = s.AllocateFallback t src n →
      (1024 < n ∧ p = src s.blocks_ n ∧
        s1 = ⟨s.alloc_ptr_, s.alloc_bytes_remaining_, s.blocks_ ++ [⟨p, n⟩],
          wadd t (wadd t s.memory_usage_ n) (toSizeT t t.ptrSize)⟩) ∨
      (n ≤ 1024 ∧ p = src s.blocks_ 4096 ∧
        s1 = ⟨p + n, 4096 - n, s.blocks_ ++ [⟨p, 4096⟩],
          wadd t (wadd t s.memory_usage_ 4096) (toSizeT t t.ptrSize)⟩) := by
    intro n hfb
    by_cases hbig : 1024 < n
    · rw [Arena.AllocateFallback_big hv src s n hbig] at hfb
      injection hfb with hp hs
      subst hp
      exact Or.inl ⟨hbig, rfl, hs⟩
    · rw [Arena.AllocateFallback_small hv src s n (by omega)] at hfb
      injection hfb with hp hs
      subst hp
      exact Or.inr ⟨by omega, rfl, hs⟩
  cases c with
  | allocate n =>
    change Arena.Allocate t src s n = some (p, s1) at h
    show (∃ k, _ ∧ _ ∧ opensFullBlock t s (Call.allocate n) = false ∧ _) ∨
      (1024 < n ∧ opensFullBlock t s (Call.allocate n) = false ∧ p = src s.blocks_ n ∧ _) ∨
      (n ≤ 1024 ∧ opensFullBlock t s (Call.allocate n) = true ∧ _)
    have hn : 0 < n := by
      rcases Nat.eq_zero_or_pos n with h0 | h0
      · subst h0; rw [Arena.Allocate_zero] at h; cases h
      · exact h0
    by_cases hfit : n ≤ s.alloc_bytes_remaining_
    · rw [Arena.Allocate_fit t src s n hn hfit, wsub_of_le hwt hfit] at h
      injection h with h
      injection h with hp hs
      subst hp
      exact Or.inl ⟨n, hfit, le_refl _, by simp [opensFullBlock, hfit], hs.symm⟩
    · rw [Arena.Allocate_nofit t src s n hn (by omega)] at h
      injection h with h
      rcases fb n h.symm with ⟨h1, h2, h3⟩ | ⟨h1, h2, h3⟩
      · exact Or.inr (Or.inl ⟨h1, by simp [opensFullBlock, hq, h1], h2, h3⟩)
      · exact Or.inr (Or.inr ⟨h1, by simp [opensFullBlock, hq, hfit, h1], h2, h3⟩)
  | allocateAligned n =>
    change Arena.AllocateAligned t src s n = some (p, s1) at h
    show (∃ k, _ ∧ _ ∧ opensFullBlock t s (Call.allocateAligned n) = false ∧ _) ∨
      (1024 < n ∧ opensFullBlock t s (Call.allocateAligned n) = false ∧
        p = src s.blocks_ n ∧ _) ∨
      (n ≤ 1024 ∧ opensFullBlock t s (Call.allocateAligned n) = true ∧ _)
    rcases Arena.AllocateAligned_cases h with ⟨hfit, hp, hs⟩ | ⟨hnofit, hfb⟩
    · rw [wsub_of_le hwt hfit] at hs
      exact Or.inl ⟨_, hfit, by omega, by simp [opensFullBlock, hfit], hs⟩
    · rcases fb n hfb with ⟨h1, h2, h3⟩ | ⟨h1, h2, h3⟩
      · exact Or.inr (Or.inl ⟨h1, by simp [opensFullBlock, hq, h1], h2, h3⟩)
      · exact Or.inr (Or.inr ⟨h1, by simp [opensFullBlock, hq, hnofit, h1], h2, h3⟩)

/-- The remaining capacity stays a `size_t` value across a call. -/
theorem step_remaining_lt {t : Target} (hv : t.Valid) (src : MemorySource) {s s1 : Arena}
    {p : Nat} {c : Call} (hwt : s.alloc_bytes_remaining_ < t.wordMod)
    (h : step t src s c = some (p, s1)) : s1.alloc_bytes_remaining_ < t.wordMod := by
  have hw := hv.wordMod_ge
  rcases step_cases hv src hwt h with ⟨k, _, _, _, hs⟩ | ⟨_, _, _, hs⟩ | ⟨_, _, _, hs⟩
  · subst hs; show s.alloc_bytes_remaining_ - k < t.wordMod; omega
  · subst hs; exact hwt
  · subst hs; show 4096 - c.bytes < t.wordMod; omega

/-- A call only ever appends to the block list. -/
theorem step_blocks_append {t : Target} (hv : t.Valid) (src : MemorySource) {s s1 : Arena}
    {p : Nat} {c : Call} (h : step t src s c = some (p, s1)) :
    ∃ l, s1.blocks_ = s.blocks_ ++ l := by
  rcases step_usage hv src h with ⟨hb, _⟩ | ⟨b, hb, _⟩
  · exact ⟨[], by rw [hb, List.append_nil]⟩
  · exact ⟨[b], hb⟩

/-- A run only ever appends to the block list. -/
theorem run_blocks_append {t : Target} (hv : t.Valid) (src : MemorySource) :
    ∀ (cs : List Call) (s s2 : Arena) (regs : List Region),
      run t src s cs = some (s2, regs) → ∃ l, s2.blocks_ = s.blocks_ ++ l := by
  intro cs
  induction cs with
  | nil =>
    intro s s2 regs h
    simp only [run, Option.some.injEq, Prod.mk.injEq] at h
    exact ⟨[], by rw [← h.1, List.append_nil]⟩
  | cons c cs ih =>
    intro s s2 regs h
    obtain ⟨p, s1, rs, h1, h2, _⟩ := run_cons_inv h
    obtain ⟨l1, hl1⟩ := step_blocks_append hv src h1
    obtain ⟨l2, hl2⟩ := ih s1 s2 rs h2
    exact ⟨l1 ++ l2, by rw [hl2, hl1, List.append_assoc]⟩

/-- The remaining capacity stays a `size_t` value along a run. -/
theorem run_remaining_lt {t : Target} (hv : t.Valid) (src : MemorySource) :
    ∀ (cs : List Call) (s s2 : Arena) (regs : List Region),
      s.alloc_bytes_remaining_ < t.wordMod → run t src s cs = some (s2, regs) →
      s2.alloc_bytes_remaining_ < t.wordMod := by
  intro cs
  induction cs with
  | nil =>
    intro s s2 regs hwt h
    simp only [run, Option.some.injEq, Prod.mk.injEq] at h
    rw [← h.1]; exact hwt
  | cons c cs ih =>
    intro s s2 regs hwt h
    obtain ⟨p, s1, rs, h1, h2, _⟩ := run_cons_inv h
    exact ih s1 s2 rs (step_remaining_lt hv src hwt h1) h2

/-- The usage counter accounts for the owned blocks, modulo the machine word,
along every run. -/
theorem run_usage {t : Target} (hv : t.Valid) (src : MemorySource) :
    ∀ (cs : List Call) (s s2 : Arena) (regs : List Region),
      s.memory_usage_ = usageOf t s.blocks_ % t.wordMod →
      run t src s cs = some (s2, regs) →
      s2.memory_usage_ = usageOf t s2.blocks_ % t.wordMod := by
  intro cs
  induction cs with
  | nil =>
    intro s s2 regs hu h
    simp only [run, Option.some.injEq, Prod.mk.injEq] at h
    rw [← h.1]; exact hu
  | cons c cs ih =>
    intro s s2 regs hu h
    obtain ⟨p, s1, rs, h1, h2, _⟩ := run_cons_inv h
    refine ih s1 s2 rs ?_ h2
    rcases step_usage hv src h1 with ⟨hb, hm⟩ | ⟨b, hb, hm⟩
    · rw [hm, hb]; exact hu
    · rw [hm, hb, hu, usage_mod, usageOf_snoc]

/-! ## The cursor invariant -/

/-- One call preserves the cursor invariant, the ghost block being replaced
exactly when the call opens a fresh full-size block. -/
theorem step_CursorInv {t : Target} (hv : t.Valid) (src : MemorySource) {s s1 : Arena}
    {p : Nat} {c : Call} {g : Option Region} (hwt : s.alloc_bytes_remaining_ < t.wordMod)
    (hinv : CursorInv s g) (h : step t src s c = some (p, s1)) :
    CursorInv s1 (if opensFullBlock t s c then
      some ⟨src s.blocks_ (toSizeT t kBlockSize), toSizeT t kBlockSize⟩ else g) := by
  rcases step_cases hv src hwt h with ⟨k, hk, _, ho, hs⟩ | ⟨_, ho, _, hs⟩ | ⟨hb, ho, hp, hs⟩
  · rw [ho, hs]
    cases g with
    | none =>
      obtain ⟨h1, h2⟩ := hinv
      show s.alloc_ptr_ + k = 0 ∧ s.alloc_bytes_remaining_ - k = 0
      omega
    | some b =>
      obtain ⟨h1, h2, h3, h4⟩ := hinv
      refine ⟨h1, h2, ?_, ?_⟩
      · show b.base ≤ s.alloc_ptr_ + k
        omega
      · show s.alloc_ptr_ + k + (s.alloc_bytes_remaining_ - k) = b.base + kBlockSize
        omega
  · rw [ho, hs]
    cases g with
    | none => exact hinv
    | some b =>
      obtain ⟨h1, h2, h3, h4⟩ := hinv
      exact ⟨List.mem_append_left _ h1, h2, h3, h4⟩
  · rw [ho, hs, hv.toSizeT_kBlockSize, ← hp]
    refine ⟨List.mem_append_right _ (List.mem_singleton_self _), rfl, ?_, ?_⟩
    · show p ≤ p + c.bytes
      omega
    · show p + c.bytes + (4096 - c.bytes) = p + kBlockSize
      unfold kBlockSize
      omega

/-- The cursor invariant along a run. -/
theorem run_CursorInv {t : Target} (hv : t.Valid) (src : MemorySource) :
    ∀ (cs : List Call) (s s2 : Arena) (g : Option Region) (regs : List Region),
      s.alloc_bytes_remaining_ < t.wordMod → CursorInv s g →
      run t src s cs = some (s2, regs) → CursorInv s2 (lastFullBlock t src s g cs) := by
  intro cs
  induction cs with
  | nil =>
    intro s s2 g regs _ hinv h
    simp only [run, Option.some.injEq, Prod.mk.injEq] at h
    rw [← h.1]
    exact hinv
  | cons c cs ih =>
    intro s s2 g regs hwt hinv h
    obtain ⟨p, s1, rs, h1, h2, _⟩ := run_cons_inv h
    simp only [lastFullBlock, h1]
    exact ih s1 s2 _ rs (step_remaining_lt hv src hwt h1) (step_CursorInv hv src hwt hinv h1) h2

/-- With a full-size block the remaining capacity is the block size minus the
bytes carved so far; in every case it is at most the block size. -/
theorem CursorInv.remaining {s : Arena} {g : Option Region} (h : CursorInv s g) :
    s.alloc_bytes_remaining_ ≤ kBlockSize ∧
    ∀ b, g = some b → s.alloc_bytes_remaining_ = kBlockSize - (s.alloc_ptr_ - b.base) := by
  cases g with
  | none =>
    obtain ⟨_, h2⟩ := h
    exact ⟨by omega, fun b hb => by cases hb⟩
  | some b =>
    obtain ⟨_, _, h3, h4⟩ := h
    refine ⟨by omega, fun b2 hb => ?_⟩
    injection hb with hb
    subst hb
    omega

/-! ## Blocks stay disjoint and non-empty -/

/-- One call keeps the owned blocks pairwise disjoint and non-empty. -/
theorem step_blocks_ok {t : Target} (hv : t.Valid) {src : MemorySource}
    (hsrc : DisjointSource src) {s s1 : Arena} {p : Nat} {c : Call}
    (hwt : s.alloc_bytes_remaining_ < t.wordMod)
    (hok : s.blocks_.Pairwise Region.Disjoint ∧ ∀ b ∈ s.blocks_, 0 < b.size)
    (h : step t src s c = some (p, s1)) :
    s1.blocks_.Pairwise Region.Disjoint ∧ ∀ b ∈ s1.blocks_, 0 < b.size := by
  have snoc : ∀ n, 0 < n →
      List.Pairwise Region.Disjoint (s.blocks_ ++ [⟨src s.blocks_ n, n⟩]) ∧
      ∀ b ∈ s.blocks_ ++ [⟨src s.blocks_ n, n⟩], 0 < b.size := by
    intro n hn
    constructor
    · refine List.pairwise_append.mpr ⟨hok.1, List.pairwise_singleton _ _, ?_⟩
      intro a ha b hb
      rw [List.mem_singleton] at hb
      subst hb
      exact (hsrc s.blocks_ n a ha).symm
    · intro b hb
      rcases List.mem_append.mp hb with h1 | h1
      · exact hok.2 b h1
      · rw [List.mem_singleton] at h1
        subst h1
        exact hn
  rcases step_cases hv src hwt h with ⟨k, _, _, _, hs⟩ | ⟨hb, _, hp, hs⟩ | ⟨_, _, hp, hs⟩
  · subst hs; exact hok
  · subst hs; subst hp; exact snoc c.bytes (by omega)
  · subst hs; subst hp; exact snoc 4096 (by decide)

/-- Along a run the owned blocks stay pairwise disjoint and non-empty. -/
theorem run_blocks_ok {t : Target} (hv : t.Valid) {src : MemorySource}
    (hsrc : DisjointSource src) :
    ∀ (cs : List Call) (s s2 : Arena) (regs : List Region),
      s.alloc_bytes_remaining_ < t.wordMod →
      (s.blocks_.Pairwise Region.Disjoint ∧ ∀ b ∈ s.blocks_, 0 < b.size) →
      run t src s cs = some (s2, regs) →
      s2.blocks_.Pairwise Region.Disjoint ∧ ∀ b ∈ s2.blocks_, 0 < b.size := by
  intro cs
  induction cs with
  | nil =>
    intro s s2 regs _ hok h
    simp only [run, Option.some.injEq, Prod.mk.injEq] at h
    rw [← h.1]
    exact hok
  | cons c cs ih =>
    intro s s2 regs hwt hok h
    obtain ⟨p, s1, rs, h1, h2, _⟩ := run_cons_inv h
    exact ih s1 s2 rs (step_remaining_lt hv src hwt h1) (step_blocks_ok hv hsrc hwt hok h1) h2

/-- Pairwise disjoint non-empty blocks have pairwise different base addresses:
the destructor never passes the same pointer to `delete[]` twice. -/
theorem destruct_nodup {s : Arena}
    (hok : s.blocks_.Pairwise Region.Disjoint ∧ ∀ b ∈ s.blocks_, 0 < b.size) :
    s.destruct.Nodup := by
  unfold Arena.destruct List.Nodup
  rw [List.pairwise_map]
  refine List.Pairwise.imp_of_mem ?_ hok.1
  intro a b ha hb hd heq
  have h1 := hok.2 a ha
  have h2 := hok.2 b hb
  simp only [Region.Disjoint, Region.stop] at hd
  omega

/-- The quantity `usageOf` is the sum over the blocks of size plus
`sizeof(char*)`. -/
theorem usageOf_eq_sum (t : Target) (bs : List Region) :
    usageOf t bs = (bs.map (fun b => b.size + t.ptrSize)).sum := by
  induction bs with
  | nil => simp [usageOf, blockBytes]
  | cons b bs ih =>
    rw [List.map_cons, List.sum_cons, ← ih]
    simp only [usageOf, blockBytes, List.map_cons, List.sum_cons, List.length_cons]
    rw [Nat.mul_succ]
    omega

/-- The counter update of `AllocateNewBlock` as one reduction modulo the word. -/
theorem usage_add_mod (t : Target) (u n : Nat) :
    wadd t (wadd t u n) (toSizeT t t.ptrSize) = (u + n + t.ptrSize) % t.wordMod := by
  unfold wadd toSizeT
  rw [Nat.add_mod_mod, Nat.mod_add_mod]

/-! ## Soundness of mixed runs without wrap-around -/

/-- `AllocateFallback` preserves the soundness invariant, the returned region
joining the protected list. -/
theorem AllocateFallback_Inv {t : Target} (hv : t.Valid) {src : MemorySource}
    (hsrc : DisjointSource src) {s : Arena} {regs : List Region} (hinv : Inv s regs)
    (n : Nat) :
    Inv (s.AllocateFallback t src n).2 (regs ++ [⟨(s.AllocateFallback t src n).1, n⟩]) := by
  obtain ⟨hb, hr, hin, hw⟩ := hinv
  have grow : ∀ m, List.Pairwise Region.Disjoint (s.blocks_ ++ [⟨src s.blocks_ m, m⟩]) ∧
      ∀ a ∈ s.blocks_, Region.Disjoint a ⟨src s.blocks_ m, m⟩ := by
    intro m
    have hnew : ∀ a ∈ s.blocks_, Region.Disjoint a ⟨src s.blocks_ m, m⟩ :=
      fun a ha => (hsrc s.blocks_ m a ha).symm
    refine ⟨List.pairwise_append.mpr ⟨hb, List.pairwise_singleton _ _, ?_⟩, hnew⟩
    intro a ha c hc
    rw [List.mem_singleton] at hc
    subst hc
    exact hnew a ha
  by_cases hbig : 1024 < n
  · rw [Arena.AllocateFallback_big hv src s n hbig]
    obtain ⟨hb2, hnew⟩ := grow n
    refine Inv_snoc hb2 hr ?_ ?_ ?_ ?_
    · intro r hr2
      obtain ⟨b, hbm, hbin⟩ := hin r hr2
      exact (hnew b hbm).of_inside hbin (Region.inside_refl _)
    · intro r hr2
      obtain ⟨b, hbm, hbin⟩ := hin r hr2
      exact ⟨b, List.mem_append_left _ hbm, hbin⟩
    · exact ⟨_, List.mem_append_right _ (List.mem_singleton_self _), Region.inside_refl _⟩
    · rcases hw with h0 | ⟨⟨b, hbm, hbin⟩, hdis⟩
      · exact Or.inl h0
      · refine Or.inr ⟨⟨b, List.mem_append_left _ hbm, hbin⟩, hdis, ?_⟩
        exact (hnew b hbm).of_inside hbin (Region.inside_refl _)
  · have hsmall : n ≤ 1024 := by omega
    rw [Arena.AllocateFallback_small hv src s n hsmall]
    obtain ⟨hb2, hnew⟩ := grow 4096
    have hsub : Region.Inside ⟨src s.blocks_ 4096, n⟩ ⟨src s.blocks_ 4096, 4096⟩ := by
      simp only [Region.Inside, Region.stop]
      omega
    have hwin : Region.Inside ⟨src s.blocks_ 4096 + n, 4096 - n⟩
        ⟨src s.blocks_ 4096, 4096⟩ := by
      simp only [Region.Inside, Region.stop]
      omega
    refine Inv_snoc hb2 hr ?_ ?_ ?_ ?_
    · intro r hr2
      obtain ⟨b, hbm, hbin⟩ := hin r hr2
      exact (hnew b hbm).of_inside hbin hsub
    · intro r hr2
      obtain ⟨b, hbm, hbin⟩ := hin r hr2
      exact ⟨b, List.mem_append_left _ hbm, hbin⟩
    · exact ⟨_, List.mem_append_right _ (List.mem_singleton_self _), hsub⟩
    · refine Or.inr ⟨⟨_, List.mem_append_right _ (List.mem_singleton_self _), hwin⟩, ?_, ?_⟩
      · intro r hr2
        obtain ⟨b, hbm, hbin⟩ := hin r hr2
        exact ((hnew b hbm).of_inside hbin hwin).symm
      · simp only [Region.Disjoint, Region.stop, Arena.window]
        omega

/-- One call of either kind with a positive size preserves the soundness
invariant, provided the request leaves room for the padding below the word
size (so that `bytes + slop` cannot wrap). -/
theorem step_Inv {t : Target} (hv : t.Valid) {src : MemorySource}
    (hsrc : DisjointSource src) {s s1 : Arena} {regs : List Region} {c : Call} {p : Nat}
    (hwt : s.alloc_bytes_remaining_ < t.wordMod) (hinv : Inv s regs)
    (hpos : 0 < c.bytes) (hroom : c.bytes + Arena.align t ≤ t.wordMod)
    (h : step t src s c = some (p, s1)) : Inv s1 (regs ++ [⟨p, c.bytes⟩]) := by
  cases c with
  | allocate n =>
    change 0 < n at hpos
    change Arena.Allocate t src s n = some (p, s1) at h
    show Inv s1 (regs ++ [⟨p, n⟩])
    obtain ⟨p2, s2, h2, hinv2, _, _⟩ := Allocate_Inv hv hsrc hwt hinv hpos
    rw [h2] at h
    injection h with h
    injection h with hp hs
    subst hp
    subst hs
    exact hinv2
  | allocateAligned n =>
    change 0 < n at hpos
    change n + Arena.align t ≤ t.wordMod at hroom
    change Arena.AllocateAligned t src s n = some (p, s1) at h
    show Inv s1 (regs ++ [⟨p, n⟩])
    have hsl := hv.slop_lt s.alloc_ptr_
    have hnw : wadd t n (Arena.slop t s.alloc_ptr_) = n + Arena.slop t s.alloc_ptr_ :=
      wadd_of_lt (by omega)
    rcases Arena.AllocateAligned_cases h with ⟨hfit, hp, hs⟩ | ⟨_, hfb⟩
    · rw [hnw] at hfit hs
      rw [wsub_of_le hwt hfit] at hs
      subst hs
      subst hp
      obtain ⟨hb, hr, hin, hw⟩ := hinv
      rcases hw with h0 | ⟨⟨b, hbm, hbin⟩, hdis⟩
      · omega
      · refine Inv_snoc hb hr ?_ ?_ ?_ ?_
        · intro r hr2
          have := hdis r hr2
          simp only [Region.Disjoint, Region.stop, Arena.window] at this ⊢
          omega
        · exact hin
        · refine ⟨b, hbm, ?_⟩
          simp only [Region.Inside, Region.stop, Arena.window] at hbin ⊢
          omega
        · refine Or.inr ⟨⟨b, hbm, ?_⟩, ?_, ?_⟩
          · simp only [Region.Inside, Region.stop, Arena.window] at hbin ⊢
            omega
          · intro r hr2
            have := hdis r hr2
            simp only [Region.Disjoint, Region.stop, Arena.window] at this ⊢
            omega
          · simp only [Region.Disjoint, Region.stop, Arena.window]
            omega
    · have hp : p = (s.AllocateFallback t src n).1 := by rw [← hfb]
      have hs : s1 = (s.AllocateFallback t src n).2 := by rw [← hfb]
      rw [hp, hs]
      exact AllocateFallback_Inv hv hsrc hinv n

/-- The soundness invariant along a run of calls of both kinds. -/
theorem run_Inv {t : Target} (hv : t.Valid) {src : MemorySource}
    (hsrc : DisjointSource src) :
    ∀ (cs : List Call) (s0 s : Arena) (pre regs : List Region),
      (∀ c ∈ cs, 0 < c.bytes ∧ c.bytes + Arena.align t ≤ t.wordMod) →
      s0.alloc_bytes_remaining_ < t.wordMod → Inv s0 pre →
      run t src s0 cs = some (s, regs) → Inv s (pre ++ regs) := by
  intro cs
  induction cs with
  | nil =>
    intro s0 s pre regs _ _ hinv h
    simp only [run, Option.some.injEq, Prod.mk.injEq] at h
    rw [← h.1, ← h.2, List.append_nil]
    exact hinv
  | cons c cs ih =>
    intro s0 s pre regs hcs hwt hinv h
    obtain ⟨p, s1, rs, h1, h2, hregs⟩ := run_cons_inv h
    have hc := hcs c (List.mem_cons_self _ _)
    have hinv1 := step_Inv hv hsrc hwt hinv hc.1 hc.2 h1
    have := ih s1 s (pre ++ [⟨p, c.bytes⟩]) rs
      (fun d hd => hcs d (List.mem_cons_of_mem _ hd))
      (step_remaining_lt hv src hwt h1) hinv1 h2
    rw [hregs]
    simpa [List.append_assoc] using this

/-- Regions handed out by any mix of `Allocate` and `AllocateAligned` calls on
a fresh arena are pairwise disjoint and each lies inside one owned block,
as long as every request is positive and leaves room for the padding below the
word size. -/
theorem regions_sound_of_room {t : Target} (hv : t.Valid) {src : MemorySource}
    (hsrc : DisjointSource src) (cs : List Call) (s : Arena) (regs : List Region)
    (hcs : ∀ c ∈ cs, 0 < c.bytes ∧ c.bytes + Arena.align t ≤ t.wordMod)
    (hrun : run t src Arena.construct cs = some (s, regs)) :
    regs.Pairwise Region.Disjoint ∧ ∀ r ∈ regs, ∃ b ∈ s.blocks_, r.Inside b := by
  have hw := hv.wordMod_ge
  have hinv := run_Inv hv hsrc cs _ _ [] _ hcs (by show 0 < t.wordMod; omega)
    Inv_construct hrun
  rw [List.nil_append] at hinv
  exact ⟨hinv.2.1, hinv.2.2.1⟩

/-- When `bytes + slop` cannot wrap and does not fit, `AllocateAligned` is
`AllocateFallback` (the memory source returning aligned blocks). -/
theorem AllocateAligned_fallback_of_room {t : Target} (hv : t.Valid) (src : MemorySource)
    (hal : AlignedSource t src) (s : Arena) (n : Nat)
    (hroom : n + Arena.align t ≤ t.wordMod)
    (hnofit : s.alloc_bytes_remaining_ < n + Arena.slop t s.alloc_ptr_) :
    s.AllocateAligned t src n = some (s.AllocateFallback t src n) := by
  have hsl := hv.slop_lt s.alloc_ptr_
  have hnw : wadd t n (Arena.slop t s.alloc_ptr_) = n + Arena.slop t s.alloc_ptr_ :=
    wadd_of_lt (by omega)
  refine Arena.AllocateAligned_nofit hv src s n (by rw [hnw]; exact hnofit) ?_
  by_cases hbig : 1024 < n
  · rw [Arena.AllocateFallback_big hv src s n hbig]
    exact hal _ _
  · rw [Arena.AllocateFallback_small hv src s n (by omega)]
    exact hal _ _

/-! ## Claims -/

/-- C1: for every finite sequence of `Allocate(n_i)` calls with every
`n_i > 0` on a freshly constructed arena, with a memory source that supplies
pairwise disjoint blocks, every call returns, the returned regions
`[p_i, p_i + n_i)` are pairwise non-overlapping, and each lies entirely inside
one block owned by the arena. -/
theorem C1_allocate_regions_sound {t : Target} (hv : t.Valid) (src : MemorySource)
    (hsrc : DisjointSource src) (ns : List Nat) (hpos : ∀ n ∈ ns, 0 < n) :
    ∃ s regs, run t src Arena.construct (ns.map Call.allocate) = some (s, regs) ∧
      regs.map Region.size = ns ∧
      regs.Pairwise Region.Disjoint ∧
      ∀ r ∈ regs, ∃ b ∈ s.blocks_, r.Inside b := by
  have hw := hv.wordMod_ge
  obtain ⟨s, regs, hrun, hsz, hinv, _, _⟩ :=
    run_allocate_Inv hv hsrc ns Arena.construct [] hpos
      (by show 0 < t.wordMod; omega) Inv_construct
  rw [List.nil_append] at hinv
  exact ⟨s, regs, hrun, hsz, hinv.2.1, hinv.2.2.1⟩

/-- C1 witness: four calls covering the fast path and both fallback paths. -/
theorem C1_allocate_regions_sound_witness :
    target64.Valid ∧ DisjointSource bumpSource ∧ (∀ n ∈ [100, 2000, 3990, 50], 0 < n) ∧
    ∃ s regs, run target64 bumpSource Arena.construct
        ([100, 2000, 3990, 50].map Call.allocate) = some (s, regs) ∧
      regs.map Region.size = [100, 2000, 3990, 50] ∧
      regs.Pairwise Region.Disjoint ∧
      ∀ r ∈ regs, ∃ b ∈ s.blocks_, r.Inside b :=
  ⟨target64_valid, bumpSource_disjoint, by decide,
    C1_allocate_regions_sound target64_valid bumpSource bumpSource_disjoint
      [100, 2000, 3990, 50] (by decide)⟩

/-- C2: in every state reached from a fresh arena by any interleaving of
`Allocate` and `AllocateAligned` calls, with a memory source whose block base
addresses are multiples of `align = max(sizeof(void*), 8)`, and for every
`n > 0`, `AllocateAligned(n)` returns normally (neither assertion fails) and
the returned address is a multiple of `align`, i.e. its low bits
`address & (align - 1)` are zero. -/
theorem C2_allocateAligned_address_aligned {t : Target} (hv : t.Valid) (src : MemorySource)
    (hal : AlignedSource t src) (cs : List Call) (s : Arena) (regs : List Region)
    (_hreach : run t src Arena.construct cs = some (s, regs)) (n : Nat) (_hn : 0 < n) :
    ∃ p s1, s.AllocateAligned t src n = some (p, s1) ∧ p % Arena.align t = 0 ∧
      ((p % t.wordMod) &&& (Arena.align t - 1)) = 0 := by
  obtain ⟨p, s1, h, hp⟩ := AllocateAligned_returns_aligned hv src hal s n
  exact ⟨p, s1, h, hp, by rw [hv.mask_eq]; exact hp⟩

/-- C2 witness: `AllocateAligned(24)` in the state reached by `Allocate(4000)`
and `Allocate(1)`, whose cursor is odd. -/
theorem C2_allocateAligned_address_aligned_witness :
    target64.Valid ∧ AlignedSource target64 bumpSource ∧
    run target64 bumpSource Arena.construct [Call.allocate 4000, Call.allocate 1]
      = some (stateUnaligned, [⟨16, 4000⟩, ⟨64272, 1⟩]) ∧ 0 < 24 ∧
    ∃ p s1, stateUnaligned.AllocateAligned target64 bumpSource 24 = some (p, s1) ∧
      p % Arena.align target64 = 0 ∧
      ((p % target64.wordMod) &&& (Arena.align target64 - 1)) = 0 :=
  ⟨target64_valid, bumpSource_aligned64, by decide, by decide,
    C2_allocateAligned_address_aligned target64_valid bumpSource bumpSource_aligned64
      [Call.allocate 4000, Call.allocate 1] stateUnaligned [⟨16, 4000⟩, ⟨64272, 1⟩]
      (by decide) 24 (by decide)⟩

/-- C3 (code evaluated at the failing input): on a 64-bit target,
`Allocate(1)` followed by `AllocateAligned(2^64 - 1)` on a fresh arena. The
second call computes `needed = (2^64 - 1) + 7 = 6` modulo `2^64`, takes the fit
path and creates no block: `MemoryUsage()` stays at 4104 (it has not wrapped)
although `2^64` bytes have been requested. -/
theorem C3_usage_below_requested :
    run target64 bumpSource Arena.construct
        [Call.allocate 1, Call.allocateAligned 18446744073709551615]
      = some (⟨23, 4089, [⟨16, 4096⟩], 4104⟩,
          [⟨16, 1⟩, ⟨24, 18446744073709551615⟩]) ∧
    Arena.MemoryUsage ⟨23, 4089, [⟨16, 4096⟩], 4104⟩
      < requested [Call.allocate 1, Call.allocateAligned 18446744073709551615] ∧
    requested [Call.allocate 1, Call.allocateAligned 18446744073709551615]
      = target64.wordMod := by
  decide


/-- C4 (code evaluated at the failing input): on a fresh arena `Allocate(0)`
fails its assertion, but `AllocateAligned(0)` has no such assertion: it takes
the fit path (`needed = 0 <= 0`) and returns the null cursor normally, leaving
the state unchanged. On a state with an unaligned cursor it returns normally
as well, consuming the padding. -/
theorem C4_allocateAligned_zero_returns :
    Arena.Allocate target64 bumpSource Arena.construct 0 = none ∧
    Arena.AllocateAligned target64 bumpSource Arena.construct 0
      = some (0, Arena.construct) ∧
    Arena.AllocateAligned target64 bumpSource stateUnaligned 0
      = some (64280, ⟨64280, 4088, [⟨16, 4000⟩, ⟨64272, 4096⟩], 8112⟩) := by
  decide

/-- C5 (counterexample): on a fresh arena `Allocate(3000)` does not create a
4096-byte block with 1096 bytes remaining; it creates a dedicated 3000-byte
block and leaves the remaining capacity at 0. -/
theorem C5_counterexample :
    ∃ p s, Arena.Allocate target64 bumpSource Arena.construct 3000 = some (p, s) ∧
      s.blocks_ = [⟨p, 3000⟩] ∧ s.alloc_bytes_remaining_ = 0 ∧
      ¬ (s.blocks_.map Region.size = [4096] ∧ s.alloc_bytes_remaining_ = 1096) :=
  ⟨16, ⟨0, 0, [⟨16, 3000⟩], 3008⟩, by decide, by decide, by decide, by decide⟩

/-- C5 (amended): on a fresh arena, `Allocate(3000)` creates one dedicated
3000-byte block, returns its base, and leaves the cursor null and the
remaining capacity 0; a subsequent `Allocate(2000)` allocates a dedicated
2000-byte block, returns its base, and leaves cursor and remaining capacity
(null, 0) unchanged. -/
theorem C5_first_allocations_dedicated {t : Target} (hv : t.Valid) (src : MemorySource) :
    Arena.Allocate t src Arena.construct 3000
      = some (src [] 3000, ⟨0, 0, [⟨src [] 3000, 3000⟩], 3000 + t.ptrSize⟩) ∧
    Arena.Allocate t src ⟨0, 0, [⟨src [] 3000, 3000⟩], 3000 + t.ptrSize⟩ 2000
      = some (src [⟨src [] 3000, 3000⟩] 2000,
          ⟨0, 0, [⟨src [] 3000, 3000⟩, ⟨src [⟨src [] 3000, 3000⟩] 2000, 2000⟩],
            5000 + 2 * t.ptrSize⟩) := by
  have hw := hv.wordMod_ge_mul
  have h2 := hv.two_le
  constructor
  · rw [Arena.Allocate_nofit _ _ _ _ (by decide) (by decide),
      Arena.AllocateFallback_big hv _ _ _ (by decide)]
    simp only [Arena.construct, List.nil_append]
    rw [usage_step (by omega)]
  · rw [Arena.Allocate_nofit _ _ _ _ (by decide) (by show 0 < 2000; decide),
      Arena.AllocateFallback_big hv _ _ _ (by decide)]
    simp only [List.singleton_append, List.cons_append, List.nil_append]
    rw [usage_step (by omega)]
    congr 3
    omega

theorem C5_first_allocations_dedicated_witness :
    target64.Valid ∧
    Arena.Allocate target64 bumpSource Arena.construct 3000
      = some (bumpSource [] 3000,
          ⟨0, 0, [⟨bumpSource [] 3000, 3000⟩], 3000 + target64.ptrSize⟩) ∧
    Arena.Allocate target64 bumpSource
        ⟨0, 0, [⟨bumpSource [] 3000, 3000⟩], 3000 + target64.ptrSize⟩ 2000
      = some (bumpSource [⟨bumpSource [] 3000, 3000⟩] 2000,
          ⟨0, 0, [⟨bumpSource [] 3000, 3000⟩,
                  ⟨bumpSource [⟨bumpSource [] 3000, 3000⟩] 2000, 2000⟩],
            5000 + 2 * target64.ptrSize⟩) :=
  ⟨target64_valid, C5_first_allocations_dedicated target64_valid bumpSource⟩

/-- C6: on a freshly constructed arena, forty consecutive `Allocate(100)`
calls create exactly one 4096-byte block (base `b1`), return the consecutive
addresses `b1, b1 + 100, ..., b1 + 3900` and leave remaining capacity 96; a
forty-first `Allocate(100)` creates a second 4096-byte block (base `b2`),
returns `b2` and leaves remaining capacity 3996; and no region returned by any
later sequence of `Allocate` calls with positive sizes meets the 96 bytes
`[b1 + 4000, b1 + 4096)` left in the first block. -/
theorem C6_forty_one_allocations {t : Target} (hv : t.Valid) (src : MemorySource)
    (hsrc : DisjointSource src) :
    run t src Arena.construct (List.replicate 40 (Call.allocate 100))
      = some (⟨src [] 4096 + 4000, 96, [⟨src [] 4096, 4096⟩], 4096 + t.ptrSize⟩,
          (List.range 40).map (fun i => ⟨src [] 4096 + 100 * i, 100⟩)) ∧
    Arena.Allocate t src
        ⟨src [] 4096 + 4000, 96, [⟨src [] 4096, 4096⟩], 4096 + t.ptrSize⟩ 100
      = some (src [⟨src [] 4096, 4096⟩] 4096,
          ⟨src [⟨src [] 4096, 4096⟩] 4096 + 100, 3996,
            [⟨src [] 4096, 4096⟩, ⟨src [⟨src [] 4096, 4096⟩] 4096, 4096⟩],
            8192 + 2 * t.ptrSize⟩) ∧
    ∀ ns : List Nat, (∀ n ∈ ns, 0 < n) →
      ∃ s regs, run t src
          ⟨src [⟨src [] 4096, 4096⟩] 4096 + 100, 3996,
            [⟨src [] 4096, 4096⟩, ⟨src [⟨src [] 4096, 4096⟩] 4096, 4096⟩],
            8192 + 2 * t.ptrSize⟩ (ns.map Call.allocate) = some (s, regs) ∧
        ∀ r ∈ regs, r.Disjoint ⟨src [] 4096 + 4000, 96⟩ := by
  have hw := hv.wordMod_ge
  have hwm := hv.wordMod_ge_mul
  have h2 := hv.two_le
  refine ⟨?_, ?_, ?_⟩
  · -- the first call opens the block, the next 39 are served from it
    have hu : wadd t (wadd t 0 4096) (toSizeT t t.ptrSize) = 4096 + t.ptrSize := by
      rw [usage_step (by omega), Nat.zero_add]
    have h1 : step t src Arena.construct (Call.allocate 100)
        = some (src [] 4096,
            ⟨src [] 4096 + 100, 3996, [⟨src [] 4096, 4096⟩], 4096 + t.ptrSize⟩) := by
      show Arena.Allocate t src Arena.construct 100 = _
      rw [Arena.Allocate_small hv src Arena.construct 100 (by show 0 < 100; decide)
        (by decide)]
      show some (_, (⟨_, _, _, wadd t (wadd t 0 4096) (toSizeT t t.ptrSize)⟩ : Arena)) = _
      rw [hu]
      rfl
    have h39 := run_replicate_fit t src [⟨src [] 4096, 4096⟩] (4096 + t.ptrSize) 100
      (by decide) 39 (src [] 4096 + 100) 3996 (by decide) (by omega)
    have e40 : List.replicate 40 (Call.allocate 100)
        = Call.allocate 100 :: List.replicate 39 (Call.allocate 100) := rfl
    rw [e40, run_cons h1 h39]
    refine congrArg some (Prod.ext ?_ ?_)
    · show (⟨src [] 4096 + 100 + 100 * 39, 3996 - 100 * 39, _, _⟩ : Arena)
        = ⟨src [] 4096 + 4000, 96, _, _⟩
      rw [Nat.add_assoc]
    · exact region_range_shift (src [] 4096) 100 39
  · have hu2 : wadd t (wadd t (4096 + t.ptrSize) 4096) (toSizeT t t.ptrSize)
        = 8192 + 2 * t.ptrSize := by
      rw [usage_step (by omega)]
      omega
    rw [Arena.Allocate_small hv src
      ⟨src [] 4096 + 4000, 96, [⟨src [] 4096, 4096⟩], 4096 + t.ptrSize⟩ 100
      (by show 96 < 100; decide) (by decide)]
    show some (_, (⟨_, _, _,
      wadd t (wadd t (4096 + t.ptrSize) 4096) (toSizeT t t.ptrSize)⟩ : Arena)) = _
    rw [hu2]
    rfl
  · intro ns hpos
    have hd : Region.Disjoint ⟨src [] 4096, 4096⟩ ⟨src [⟨src [] 4096, 4096⟩] 4096, 4096⟩ :=
      (hsrc [⟨src [] 4096, 4096⟩] 4096 _ (List.mem_singleton_self _)).symm
    have hdead : Region.Inside ⟨src [] 4096 + 4000, 96⟩ ⟨src [] 4096, 4096⟩ := by
      simp only [Region.Inside, Region.stop]; omega
    have hwin : Region.Inside ⟨src [⟨src [] 4096, 4096⟩] 4096 + 100, 3996⟩
        ⟨src [⟨src [] 4096, 4096⟩] 4096, 4096⟩ := by
      simp only [Region.Inside, Region.stop]; omega
    have hinv : Inv ⟨src [⟨src [] 4096, 4096⟩] 4096 + 100, 3996,
        [⟨src [] 4096, 4096⟩, ⟨src [⟨src [] 4096, 4096⟩] 4096, 4096⟩],
        8192 + 2 * t.ptrSize⟩ [⟨src [] 4096 + 4000, 96⟩] := by
      refine ⟨?_, List.pairwise_singleton _ _, ?_, Or.inr ⟨?_, ?_⟩⟩
      · exact List.pairwise_pair.mpr hd
      · intro r hr
        rw [List.mem_singleton] at hr
        subst hr
        exact ⟨_, List.mem_cons_self _ _, hdead⟩
      · exact ⟨_, List.mem_cons_of_mem _ (List.mem_singleton_self _), hwin⟩
      · intro r hr
        rw [List.mem_singleton] at hr
        subst hr
        exact (hd.of_inside hdead hwin).symm
    obtain ⟨s, regs, hrun, _, hinv2, _, _⟩ :=
      run_allocate_Inv hv hsrc ns _ _ hpos (by show 3996 < t.wordMod; omega) hinv
    refine ⟨s, regs, hrun, ?_⟩
    intro r hr
    have hp := hinv2.2.1
    rw [List.singleton_append, List.pairwise_cons] at hp
    exact (hp.1 r hr).symm

/-- C6 witness: the 64-bit target with the bump memory source. -/
theorem C6_forty_one_allocations_witness :
    target64.Valid ∧ DisjointSource bumpSource ∧
    run target64 bumpSource Arena.construct (List.replicate 40 (Call.allocate 100))
      = some (⟨bumpSource [] 4096 + 4000, 96, [⟨bumpSource [] 4096, 4096⟩],
            4096 + target64.ptrSize⟩,
          (List.range 40).map (fun i => ⟨bumpSource [] 4096 + 100 * i, 100⟩)) :=
  ⟨target64_valid, bumpSource_disjoint,
    (C6_forty_one_allocations target64_valid bumpSource bumpSource_disjoint).1⟩

/-- C7: oversized fallback. For every state and every size with
`size > remaining` and `size > 1024`, `Allocate(size)` appends exactly one
block of exactly `size` bytes, returns its base address, and leaves the cursor
and the remaining capacity unchanged; a later request that fits in the old
remaining capacity is still served from the old cursor. -/
theorem C7_oversized_fallback_keeps_cursor {t : Target} (hv : t.Valid) (src : MemorySource)
    (s : Arena) (size : Nat) (hrem : s.alloc_bytes_remaining_ < size) (hbig : 1024 < size) :
    s.Allocate t src size = some (src s.blocks_ size,
      ⟨s.alloc_ptr_, s.alloc_bytes_remaining_, s.blocks_ ++ [⟨src s.blocks_ size, size⟩],
        wadd t (wadd t s.memory_usage_ size) (toSizeT t t.ptrSize)⟩) ∧
    ∀ m, 0 < m → m ≤ s.alloc_bytes_remaining_ →
      ∃ s2, Arena.Allocate t src
        ⟨s.alloc_ptr_, s.alloc_bytes_remaining_, s.blocks_ ++ [⟨src s.blocks_ size, size⟩],
          wadd t (wadd t s.memory_usage_ size) (toSizeT t t.ptrSize)⟩ m
        = some (s.alloc_ptr_, s2) := by
  constructor
  · rw [Arena.Allocate_nofit _ _ _ _ (by omega) hrem, Arena.AllocateFallback_big hv _ _ _ hbig]
  · intro m hm hfit
    exact ⟨_, Arena.Allocate_fit _ _ _ _ hm hfit⟩

/-- C7 witness: `Allocate(5000)` on `stateAfter100` (remaining capacity 3996). -/
theorem C7_oversized_fallback_keeps_cursor_witness :
    target64.Valid ∧ stateAfter100.alloc_bytes_remaining_ < 5000 ∧ 1024 < 5000 ∧
    (stateAfter100.Allocate target64 bumpSource 5000
      = some (bumpSource stateAfter100.blocks_ 5000,
          ⟨stateAfter100.alloc_ptr_, stateAfter100.alloc_bytes_remaining_,
            stateAfter100.blocks_ ++ [⟨bumpSource stateAfter100.blocks_ 5000, 5000⟩],
            wadd target64 (wadd target64 stateAfter100.memory_usage_ 5000)
              (toSizeT target64 target64.ptrSize)⟩) ∧
    ∀ m, 0 < m → m ≤ stateAfter100.alloc_bytes_remaining_ →
      ∃ s2, Arena.Allocate target64 bumpSource
        ⟨stateAfter100.alloc_ptr_, stateAfter100.alloc_bytes_remaining_,
          stateAfter100.blocks_ ++ [⟨bumpSource stateAfter100.blocks_ 5000, 5000⟩],
          wadd target64 (wadd target64 stateAfter100.memory_usage_ 5000)
            (toSizeT target64 target64.ptrSize)⟩ m
        = some (stateAfter100.alloc_ptr_, s2)) :=
  ⟨target64_valid, by decide, by decide,
    C7_oversized_fallback_keeps_cursor target64_valid bumpSource stateAfter100 5000
      (by decide) (by decide)⟩

/-- C8: small-request fallback. For every state and every size with
`remaining < size <= 1024`, `Allocate(size)` appends exactly one new block of
4096 bytes, returns that block's base address, sets the cursor to
`base + size` and the remaining capacity to `4096 - size`; the capacity the
previous block had left is discarded. -/
theorem C8_small_fallback_fresh_block {t : Target} (hv : t.Valid) (src : MemorySource)
    (s : Arena) (size : Nat) (hrem : s.alloc_bytes_remaining_ < size) (hsmall : size ≤ 1024) :
    s.Allocate t src size = some (src s.blocks_ 4096,
      ⟨src s.blocks_ 4096 + size, 4096 - size, s.blocks_ ++ [⟨src s.blocks_ 4096, 4096⟩],
        wadd t (wadd t s.memory_usage_ 4096) (toSizeT t t.ptrSize)⟩) := by
  exact Arena.Allocate_small hv src s size hrem hsmall

/-- C8 witness: `Allocate(1024)` (the boundary) on a state with 100 bytes left. -/
theorem C8_small_fallback_fresh_block_witness :
    target64.Valid ∧ (100 : Nat) < 1024 ∧ (1024 : Nat) ≤ 1024 ∧
    Arena.Allocate target64 bumpSource ⟨4012, 100, [⟨16, 4096⟩], 4104⟩ 1024
      = some (bumpSource [⟨16, 4096⟩] 4096,
          ⟨bumpSource [⟨16, 4096⟩] 4096 + 1024, 4096 - 1024,
            [⟨16, 4096⟩] ++ [⟨bumpSource [⟨16, 4096⟩] 4096, 4096⟩],
            wadd target64 (wadd target64 4104 4096) (toSizeT target64 target64.ptrSize)⟩) :=
  ⟨target64_valid, by decide, by decide,
    C8_small_fallback_fresh_block target64_valid bumpSource
      ⟨4012, 100, [⟨16, 4096⟩], 4104⟩ 1024 (by decide) (by decide)⟩

/-- C9: fast path. For every state and every size with
`0 < size <= remaining`, `Allocate(size)` returns the old cursor address,
advances the cursor by exactly `size`, decreases the remaining capacity by
exactly `size`, creates no block and leaves `MemoryUsage()` unchanged. -/
theorem C9_allocate_fast_path (t : Target) (src : MemorySource) (s : Arena) (size : Nat)
    (hwt : s.WellTyped t) (hpos : 0 < size) (hfit : size ≤ s.alloc_bytes_remaining_) :
    s.Allocate t src size = some (s.alloc_ptr_,
      ⟨s.alloc_ptr_ + size, s.alloc_bytes_remaining_ - size, s.blocks_, s.memory_usage_⟩) ∧
    (s.alloc_bytes_remaining_ - size) + size = s.alloc_bytes_remaining_ ∧
    Arena.MemoryUsage
      ⟨s.alloc_ptr_ + size, s.alloc_bytes_remaining_ - size, s.blocks_, s.memory_usage_⟩
      = s.MemoryUsage := by
  refine ⟨?_, by omega, rfl⟩
  rw [Arena.Allocate_fit _ _ _ _ hpos hfit, wsub_of_le hwt.1 hfit]

/-- C9 witness: `Allocate(96)` on `stateAfter100`. -/
theorem C9_allocate_fast_path_witness :
    stateAfter100.WellTyped target64 ∧ 0 < 96 ∧ 96 ≤ stateAfter100.alloc_bytes_remaining_ ∧
    (stateAfter100.Allocate target64 bumpSource 96 = some (stateAfter100.alloc_ptr_,
      ⟨stateAfter100.alloc_ptr_ + 96, stateAfter100.alloc_bytes_remaining_ - 96,
        stateAfter100.blocks_, stateAfter100.memory_usage_⟩) ∧
    (stateAfter100.alloc_bytes_remaining_ - 96) + 96 = stateAfter100.alloc_bytes_remaining_ ∧
    Arena.MemoryUsage
      ⟨stateAfter100.alloc_ptr_ + 96, stateAfter100.alloc_bytes_remaining_ - 96,
        stateAfter100.blocks_, stateAfter100.memory_usage_⟩
      = stateAfter100.MemoryUsage) :=
  ⟨by decide, by decide, by decide,
    C9_allocate_fast_path target64 bumpSource stateAfter100 96
      (by decide) (by decide) (by decide)⟩

/-- C10: `AllocateAligned` fit path. With `align = max(sizeof(void*), 8)` and
`slop = (align - cursor mod align) mod align`, for every state and every
`size > 0` with `size + slop <= remaining`, `AllocateAligned(size)` returns
`cursor + slop`, which is a multiple of `align`, is at least the old cursor and
is the least such multiple (so `slop < align`); it advances the cursor by
`size + slop`, decreases the remaining capacity by `size + slop`, and creates
no block (block list and usage counter unchanged). -/
theorem C10_allocateAligned_fit_path {t : Target} (hv : t.Valid) (src : MemorySource)
    (s : Arena) (size : Nat) (hwt : s.WellTyped t) (_hpos : 0 < size)
    (hfit : size + (Arena.align t - s.alloc_ptr_ % Arena.align t) % Arena.align t
      ≤ s.alloc_bytes_remaining_) :
    s.AllocateAligned t src size
      = some (s.alloc_ptr_ + (Arena.align t - s.alloc_ptr_ % Arena.align t) % Arena.align t,
          ⟨s.alloc_ptr_
              + (size + (Arena.align t - s.alloc_ptr_ % Arena.align t) % Arena.align t),
            s.alloc_bytes_remaining_
              - (size + (Arena.align t - s.alloc_ptr_ % Arena.align t) % Arena.align t),
            s.blocks_, s.memory_usage_⟩) ∧
    (Arena.align t - s.alloc_ptr_ % Arena.align t) % Arena.align t < Arena.align t ∧
    (s.alloc_ptr_ + (Arena.align t - s.alloc_ptr_ % Arena.align t) % Arena.align t)
      % Arena.align t = 0 ∧
    (∀ m, s.alloc_ptr_ ≤ m → m % Arena.align t = 0 →
      s.alloc_ptr_ + (Arena.align t - s.alloc_ptr_ % Arena.align t) % Arena.align t ≤ m) := by
  have hs := hv.slop_eq s.alloc_ptr_
  rw [← hs] at hfit ⊢
  have hlt : size + Arena.slop t s.alloc_ptr_ < t.wordMod := lt_of_le_of_lt hfit hwt.1
  have hw : wadd t size (Arena.slop t s.alloc_ptr_) = size + Arena.slop t s.alloc_ptr_ :=
    wadd_of_lt hlt
  refine ⟨?_, hv.slop_lt _, hv.slop_aligned _, fun m h1 h2 => hv.slop_least _ m h1 h2⟩
  rw [Arena.AllocateAligned_fit hv src s size (by rw [hw]; exact hfit), hw,
    wsub_of_le hwt.1 hfit]

/-- C10 witness: `AllocateAligned(24)` on `stateUnaligned` (cursor 64273,
padding 7). -/
theorem C10_allocateAligned_fit_path_witness :
    target64.Valid ∧ stateUnaligned.WellTyped target64 ∧ 0 < 24 ∧
    24 + (Arena.align target64 - stateUnaligned.alloc_ptr_ % Arena.align target64)
        % Arena.align target64 ≤ stateUnaligned.alloc_bytes_remaining_ ∧
    stateUnaligned.AllocateAligned target64 bumpSource 24
      = some (64280, ⟨64304, 4064, [⟨16, 4000⟩, ⟨64272, 4096⟩], 8112⟩) :=
  ⟨target64_valid, by decide, by decide, by decide,
    (C10_allocateAligned_fit_path target64_valid bumpSource stateUnaligned 24
      (by decide) (by decide) (by decide)).1⟩

/-- C11 (code evaluated at the failing input): on a 64-bit target, in the
state reached by `Allocate(1)` (cursor 17, remaining 4095, padding 7), the
request `AllocateAligned(2^64 - 1)` has `size + slop = 2^64 + 6 > remaining`,
yet the call does not behave like `AllocateFallback`: `needed` wraps to 6, the
fit path returns address 24 and moves the cursor to 23 without creating a
block, whereas `AllocateFallback(2^64 - 1)` returns a dedicated block and
leaves the cursor at 17. -/
theorem C11_wrapped_request_skips_fallback :
    run target64 bumpSource Arena.construct [Call.allocate 1]
      = some (stateAfter1, [⟨16, 1⟩]) ∧
    stateAfter1.alloc_bytes_remaining_
      < 18446744073709551615 + Arena.slop target64 stateAfter1.alloc_ptr_ ∧
    stateAfter1.AllocateAligned target64 bumpSource 18446744073709551615
      = some (24, ⟨23, 4089, [⟨16, 4096⟩], 4104⟩) ∧
    stateAfter1.AllocateFallback target64 bumpSource 18446744073709551615
      = (65808, ⟨17, 4095, [⟨16, 4096⟩, ⟨65808, 18446744073709551615⟩], 4111⟩) ∧
    stateAfter1.AllocateAligned target64 bumpSource 18446744073709551615
      ≠ some (stateAfter1.AllocateFallback target64 bumpSource 18446744073709551615) := by
  decide

/-- C12: `Allocate` and `AllocateAligned` only ever append to the owned block
list: along every sequence of calls from a state reached from a fresh arena the
old block list is a prefix of the new one, so every region that lay inside an
owned block before (in particular every region returned earlier) lies inside
that same, still owned, block afterwards. The destructor hands exactly the
base pointers of the owned blocks to `delete[]`, one per block and, the memory
source supplying disjoint blocks, no pointer twice. -/
theorem C12_earlier_allocations_stay_valid {t : Target} (hv : t.Valid) (src : MemorySource)
    (hsrc : DisjointSource src) (cs1 cs2 : List Call) (s1 s2 : Arena)
    (regs1 regs2 : List Region)
    (h1 : run t src Arena.construct cs1 = some (s1, regs1))
    (h2 : run t src s1 cs2 = some (s2, regs2)) :
    (∃ l, s2.blocks_ = s1.blocks_ ++ l) ∧
    (∀ r ∈ regs1, ∀ b ∈ s1.blocks_, r.Inside b → b ∈ s2.blocks_ ∧ r.Inside b) ∧
    (∀ r : Region, (∃ b ∈ s1.blocks_, r.Inside b) → ∃ b ∈ s2.blocks_, r.Inside b) ∧
    s2.destruct = s2.blocks_.map Region.base ∧
    s2.destruct.length = s2.blocks_.length ∧
    s2.destruct.Nodup := by
  have hw := hv.wordMod_ge
  have h0 : Arena.construct.alloc_bytes_remaining_ < t.wordMod := by
    show 0 < t.wordMod
    omega
  obtain ⟨l, hl⟩ := run_blocks_append hv src cs2 s1 s2 regs2 h2
  have hwt1 := run_remaining_lt hv src cs1 _ _ _ h0 h1
  have hok1 := run_blocks_ok hv hsrc cs1 _ _ _ h0
    ⟨List.Pairwise.nil, fun b hb => by cases hb⟩ h1
  have hok2 := run_blocks_ok hv hsrc cs2 _ _ _ hwt1 hok1 h2
  refine ⟨⟨l, hl⟩, ?_, ?_, rfl, ?_, destruct_nodup hok2⟩
  · intro r _ b hb hin
    exact ⟨by rw [hl]; exact List.mem_append_left _ hb, hin⟩
  · rintro r ⟨b, hb, hin⟩
    exact ⟨b, by rw [hl]; exact List.mem_append_left _ hb, hin⟩
  · unfold Arena.destruct
    rw [List.length_map]

/-- C12 witness: two allocations, then three more (a dedicated block, an
aligned carve from the current block, another dedicated block). -/
theorem C12_earlier_allocations_stay_valid_witness :
    target64.Valid ∧ DisjointSource bumpSource ∧
    run target64 bumpSource Arena.construct [Call.allocate 4000, Call.allocate 1]
      = some (stateUnaligned, [⟨16, 4000⟩, ⟨64272, 1⟩]) ∧
    run target64 bumpSource stateUnaligned
        [Call.allocate 5000, Call.allocateAligned 24, Call.allocate 4090]
      = some (⟨64304, 4064, [⟨16, 4000⟩, ⟨64272, 4096⟩, ⟨1093904, 5000⟩, ⟨17582480, 4090⟩],
            17218⟩, [⟨1093904, 5000⟩, ⟨64280, 24⟩, ⟨17582480, 4090⟩]) ∧
    (∀ r ∈ [(⟨16, 4000⟩ : Region), ⟨64272, 1⟩], ∀ b ∈ stateUnaligned.blocks_, r.Inside b →
      b ∈ [(⟨16, 4000⟩ : Region), ⟨64272, 4096⟩, ⟨1093904, 5000⟩, ⟨17582480, 4090⟩] ∧
        r.Inside b) :=
  ⟨target64_valid, bumpSource_disjoint, by decide, by decide,
    (C12_earlier_allocations_stay_valid target64_valid bumpSource bumpSource_disjoint
      [Call.allocate 4000, Call.allocate 1]
      [Call.allocate 5000, Call.allocateAligned 24, Call.allocate 4090]
      stateUnaligned
      ⟨64304, 4064, [⟨16, 4000⟩, ⟨64272, 4096⟩, ⟨1093904, 5000⟩, ⟨17582480, 4090⟩], 17218⟩
      [⟨16, 4000⟩, ⟨64272, 1⟩] [⟨1093904, 5000⟩, ⟨64280, 24⟩, ⟨17582480, 4090⟩]
      (by decide) (by decide)).2.1⟩

/-- C13: exact accounting of the usage counter. `MemoryUsage()` is 0 for a
fresh arena; in every state reachable from a fresh arena it equals, modulo the
machine word, the sum over the owned blocks of block size plus
`sizeof(char*)`; and one more call either leaves block list and counter
unchanged or appends exactly one block and adds exactly that block's size plus
`sizeof(char*)` to the counter (modulo the machine word, hence exactly when
the sum stays below it). -/
theorem C13_usage_counter_exact {t : Target} (hv : t.Valid) (src : MemorySource)
    (cs : List Call) (s : Arena) (regs : List Region)
    (hrun : run t src Arena.construct cs = some (s, regs)) :
    Arena.construct.MemoryUsage = 0 ∧
    s.MemoryUsage = (s.blocks_.map (fun b => b.size + t.ptrSize)).sum % t.wordMod ∧
    ∀ (c : Call) (p : Nat) (s1 : Arena), step t src s c = some (p, s1) →
      (s1.blocks_ = s.blocks_ ∧ s1.MemoryUsage = s.MemoryUsage) ∨
      ∃ b, s1.blocks_ = s.blocks_ ++ [b] ∧
        s1.MemoryUsage = (s.MemoryUsage + b.size + t.ptrSize) % t.wordMod ∧
        (s.MemoryUsage + b.size + t.ptrSize < t.wordMod →
          s1.MemoryUsage = s.MemoryUsage + b.size + t.ptrSize) := by
  refine ⟨rfl, ?_, ?_⟩
  · rw [← usageOf_eq_sum]
    exact run_usage hv src cs _ _ _ (by simp [Arena.construct, usageOf, blockBytes]) hrun
  · intro c p s1 h
    rcases step_usage hv src h with hsame | ⟨b, hb, hu⟩
    · exact Or.inl hsame
    · refine Or.inr ⟨b, hb, ?_, ?_⟩
      · show s1.memory_usage_ = _
        rw [hu, usage_add_mod]
        rfl
      · intro hlt
        show s1.memory_usage_ = _
        rw [hu]
        exact usage_step hlt

/-- C13 witness: the state reached by `Allocate(4000)` and `Allocate(1)`:
two blocks, counter `(4000 + 8) + (4096 + 8) = 8112`. -/
theorem C13_usage_counter_exact_witness :
    target64.Valid ∧
    run target64 bumpSource Arena.construct [Call.allocate 4000, Call.allocate 1]
      = some (stateUnaligned, [⟨16, 4000⟩, ⟨64272, 1⟩]) ∧
    stateUnaligned.MemoryUsage
      = (stateUnaligned.blocks_.map (fun b => b.size + target64.ptrSize)).sum
          % target64.wordMod :=
  ⟨target64_valid, by decide,
    (C13_usage_counter_exact target64_valid bumpSource
      [Call.allocate 4000, Call.allocate 1] stateUnaligned [⟨16, 4000⟩, ⟨64272, 1⟩]
      (by decide)).2.1⟩

/-- C15: cursor invariant. In every state reached from a fresh arena by
`Allocate` and `AllocateAligned` calls with positive sizes: if no full-size
block has been created yet, the cursor is null and the remaining capacity is
0; otherwise the most recently created full-size block `b` is owned, has 4096
bytes, `b.base <= cursor` and `cursor + remaining = b.base + 4096`. Hence the
remaining capacity is 4096 minus the bytes carved from that block (at most
4096 in every case), and no subtraction from the remaining capacity
underflows: a further call leaves it unchanged, or subtracts some
`k <= remaining` (moving the cursor by the same `k`), or sets it to
`4096 - bytes` with `bytes <= 4096`. -/
theorem C15_cursor_invariant {t : Target} (hv : t.Valid) (src : MemorySource)
    (cs : List Call) (s : Arena) (regs : List Region)
    (_hpos : ∀ c ∈ cs, 0 < c.bytes)
    (hrun : run t src Arena.construct cs = some (s, regs)) :
    CursorInv s (lastFullBlock t src Arena.construct none cs) ∧
    s.alloc_bytes_remaining_ ≤ kBlockSize ∧
    (∀ b, lastFullBlock t src Arena.construct none cs = some b →
      s.alloc_bytes_remaining_ = kBlockSize - (s.alloc_ptr_ - b.base)) ∧
    ∀ (c : Call) (p : Nat) (s1 : Arena), step t src s c = some (p, s1) →
      s1.alloc_bytes_remaining_ = s.alloc_bytes_remaining_ ∨
      (∃ k, k ≤ s.alloc_bytes_remaining_ ∧ s1.alloc_ptr_ = s.alloc_ptr_ + k ∧
        s1.alloc_bytes_remaining_ = s.alloc_bytes_remaining_ - k) ∨
      (c.bytes ≤ kBlockSize ∧ s1.alloc_bytes_remaining_ = kBlockSize - c.bytes) := by
  have hw := hv.wordMod_ge
  have h0 : Arena.construct.alloc_bytes_remaining_ < t.wordMod := by
    show 0 < t.wordMod
    omega
  have hinv := run_CursorInv hv src cs _ _ none _ h0 ⟨rfl, rfl⟩ hrun
  have hwt := run_remaining_lt hv src cs _ _ _ h0 hrun
  refine ⟨hinv, hinv.remaining.1, hinv.remaining.2, ?_⟩
  intro c p s1 h
  rcases step_cases hv src hwt h with ⟨k, hk, _, _, hs⟩ | ⟨_, _, _, hs⟩ | ⟨hb, _, _, hs⟩
  · subst hs
    exact Or.inr (Or.inl ⟨k, hk, rfl, rfl⟩)
  · subst hs
    exact Or.inl rfl
  · subst hs
    exact Or.inr (Or.inr ⟨by unfold kBlockSize; omega, rfl⟩)

/-- C15 witness: `Allocate(100)` opens the full-size block at 16,
`Allocate(4096)` gets a dedicated block that also has 4096 bytes,
`AllocateAligned(8)` carves from the first block again: the most recent
full-size block is still the one at 16 and `128 + 3984 = 16 + 4096`. -/
theorem C15_cursor_invariant_witness :
    target64.Valid ∧
    (∀ c ∈ [Call.allocate 100, Call.allocate 4096, Call.allocateAligned 8], 0 < c.bytes) ∧
    run target64 bumpSource Arena.construct
        [Call.allocate 100, Call.allocate 4096, Call.allocateAligned 8]
      = some (⟨128, 3984, [⟨16, 4096⟩, ⟨65808, 4096⟩], 8208⟩,
          [⟨16, 100⟩, ⟨65808, 4096⟩, ⟨120, 8⟩]) ∧
    lastFullBlock target64 bumpSource Arena.construct none
        [Call.allocate 100, Call.allocate 4096, Call.allocateAligned 8]
      = some ⟨16, 4096⟩ ∧
    CursorInv ⟨128, 3984, [⟨16, 4096⟩, ⟨65808, 4096⟩], 8208⟩
      (lastFullBlock target64 bumpSource Arena.construct none
        [Call.allocate 100, Call.allocate 4096, Call.allocateAligned 8]) :=
  ⟨target64_valid, by decide, by decide, by decide,
    (C15_cursor_invariant target64_valid bumpSource
      [Call.allocate 100, Call.allocate 4096, Call.allocateAligned 8]
      ⟨128, 3984, [⟨16, 4096⟩, ⟨65808, 4096⟩], 8208⟩
      [⟨16, 100⟩, ⟨65808, 4096⟩, ⟨120, 8⟩] (by decide) (by decide)).1⟩

/-- C16: a freshly constructed arena has a null cursor, remaining capacity 0,
no blocks and `MemoryUsage() == 0`, and the first allocation call of any
positive size, `Allocate` or `AllocateAligned` (the memory source returning
aligned blocks), returns the base of a newly created block and leaves exactly
that one block owned: a 4096-byte block if `size <= 1024`, otherwise a block of
exactly `size` bytes. -/
theorem C16_fresh_arena_first_call {t : Target} (hv : t.Valid) (src : MemorySource)
    (hal : AlignedSource t src) (size : Nat) (hpos : 0 < size) (hlt : size < t.wordMod) :
    Arena.construct.alloc_ptr_ = 0 ∧ Arena.construct.alloc_bytes_remaining_ = 0 ∧
    Arena.construct.blocks_ = [] ∧ Arena.construct.MemoryUsage = 0 ∧
    (∃ s1, Arena.construct.Allocate t src size
        = some (src [] (if size ≤ 1024 then 4096 else size), s1) ∧
      s1.blocks_ = [⟨src [] (if size ≤ 1024 then 4096 else size),
        if size ≤ 1024 then 4096 else size⟩]) ∧
    (∃ s1, Arena.construct.AllocateAligned t src size
        = some (src [] (if size ≤ 1024 then 4096 else size), s1) ∧
      s1.blocks_ = [⟨src [] (if size ≤ 1024 then 4096 else size),
        if size ≤ 1024 then 4096 else size⟩]) := by
  have hfb : ∃ s1, Arena.construct.AllocateFallback t src size
        = (src [] (if size ≤ 1024 then 4096 else size), s1) ∧
      s1.blocks_ = [⟨src [] (if size ≤ 1024 then 4096 else size),
        if size ≤ 1024 then 4096 else size⟩] := by
    by_cases hs : size ≤ 1024
    · rw [Arena.AllocateFallback_small hv src _ size hs, if_pos hs]
      exact ⟨_, rfl, rfl⟩
    · rw [Arena.AllocateFallback_big hv src _ size (by omega), if_neg hs]
      exact ⟨_, rfl, rfl⟩
  obtain ⟨s1, h1, h2⟩ := hfb
  refine ⟨rfl, rfl, rfl, rfl, ⟨s1, ?_, h2⟩, ⟨s1, ?_, h2⟩⟩
  · rw [Arena.Allocate_nofit t src _ size hpos (by exact hpos), h1]
  · have hslop : Arena.slop t Arena.construct.alloc_ptr_ = 0 := by
      show Arena.slop t 0 = 0
      rw [hv.slop_eq, Nat.zero_mod, Nat.sub_zero, Nat.mod_self]
    have hneed : wadd t size (Arena.slop t Arena.construct.alloc_ptr_) = size := by
      rw [hslop, wadd_of_lt (by omega)]
      rfl
    rw [Arena.AllocateAligned_nofit hv src _ size (by rw [hneed]; exact hpos)
      (by rw [h1]; exact hal _ _), h1]

/-- C16 witness: a first request of 1024 bytes (the boundary) on the 64-bit
target. -/
theorem C16_fresh_arena_first_call_witness :
    target64.Valid ∧ AlignedSource target64 bumpSource ∧ 0 < 1024 ∧
    1024 < target64.wordMod ∧
    (∃ s1, Arena.construct.AllocateAligned target64 bumpSource 1024
        = some (bumpSource [] (if 1024 ≤ 1024 then 4096 else 1024), s1) ∧
      s1.blocks_ = [⟨bumpSource [] (if 1024 ≤ 1024 then 4096 else 1024),
        if 1024 ≤ 1024 then 4096 else 1024⟩]) :=
  ⟨target64_valid, bumpSource_aligned64, by decide, by decide,
    (C16_fresh_arena_first_call target64_valid bumpSource bumpSource_aligned64 1024
      (by decide) (by decide)).2.2.2.2.2⟩

/-- C17 (code evaluated at the failing input): on a 64-bit target with the
bump memory source (disjoint, aligned blocks), `Allocate(1)`,
`AllocateAligned(2^64 - 1)`, `Allocate(10)` on a fresh arena all return. The
second call's `bytes + slop` wraps to 6, so it is served from the 4096-byte
block: its region `[24, 24 + 2^64 - 1)` lies inside no owned block, and it
overlaps the region `[23, 33)` returned by the third call. -/
theorem C17_wrapped_region_unsound :
    run target64 bumpSource Arena.construct
        [Call.allocate 1, Call.allocateAligned 18446744073709551615, Call.allocate 10]
      = some (⟨33, 4079, [⟨16, 4096⟩], 4104⟩,
          [⟨16, 1⟩, ⟨24, 18446744073709551615⟩, ⟨23, 10⟩]) ∧
    ¬ (∃ b ∈ [(⟨16, 4096⟩ : Region)], Region.Inside ⟨24, 18446744073709551615⟩ b) ∧
    ¬ Region.Disjoint ⟨24, 18446744073709551615⟩ ⟨23, 10⟩ := by
  decide

/-- C18: bounded waste. Whenever a call `Allocate(size)` with `size > 0`
replaces the current block by a fresh 4096-byte block (the call appends the
block `[p, p + 4096)`, returns `p`, and leaves the cursor at `p + size` with
`4096 - size` bytes remaining), the capacity discarded from the old block is
strictly less than `size` and at most 1023 bytes; when `AllocateAligned(size)`
does so, the discarded capacity is strictly less than `size + slop` and at most
`1024 + align - 2` bytes. -/
theorem C18_bounded_waste {t : Target} (hv : t.Valid) (src : MemorySource)
    (s s1 : Arena) (size p : Nat) (hpos : 0 < size) :
    (s.Allocate t src size = some (p, s1) → s1.blocks_ = s.blocks_ ++ [⟨p, 4096⟩] →
      s1.alloc_ptr_ = p + size → s1.alloc_bytes_remaining_ = 4096 - size →
      s.alloc_bytes_remaining_ < size ∧ s.alloc_bytes_remaining_ ≤ 1023) ∧
    (s.AllocateAligned t src size = some (p, s1) → s1.blocks_ = s.blocks_ ++ [⟨p, 4096⟩] →
      s1.alloc_ptr_ = p + size → s1.alloc_bytes_remaining_ = 4096 - size →
      s.alloc_bytes_remaining_ < size + Arena.slop t s.alloc_ptr_ ∧
      s.alloc_bytes_remaining_ ≤ 1024 + Arena.align t - 2) := by
  have hw := hv.wordMod_ge
  have hwm := hv.wordMod_ge_mul
  have h2 := hv.two_le
  have ha := align_pos t
  have hal : Arena.align t ≤ t.ptrSize ∨ Arena.align t = 8 := by
    unfold Arena.align; split <;> omega
  have hsl := hv.slop_lt s.alloc_ptr_
  have nosame : ∀ b : Region, s.blocks_ ≠ s.blocks_ ++ [b] := by
    intro b hb
    have := congrArg List.length hb
    rw [List.length_append, List.length_singleton] at this
    omega
  -- what the fallback contributes, whichever operation called it
  have fb : (p, s1) = s.AllocateFallback t src size →
      s1.blocks_ = s.blocks_ ++ [⟨p, 4096⟩] → s1.alloc_bytes_remaining_ = 4096 - size →
      size ≤ 1024 ∨ s.alloc_bytes_remaining_ = 0 := by
    intro hfb hb hr
    by_cases hbig : 1024 < size
    · rw [Arena.AllocateFallback_big hv src s size hbig] at hfb
      injection hfb with _ hs
      subst hs
      have hsz := List.append_cancel_left hb
      injection hsz with hsz
      injection hsz with _ hsz
      right
      change s.alloc_bytes_remaining_ = 4096 - size at hr
      omega
    · left; omega
  constructor
  · intro h hb _ hr
    by_cases hfit : size ≤ s.alloc_bytes_remaining_
    · rw [Arena.Allocate_fit t src s size hpos hfit] at h
      injection h with h
      injection h with _ hs
      subst hs
      exact absurd hb (nosame _)
    · rw [Arena.Allocate_nofit t src s size hpos (by omega)] at h
      injection h with h
      rcases fb h.symm hb hr with h1 | h1 <;> omega
  · intro h hb _ hr
    rcases Arena.AllocateAligned_cases h with ⟨_, _, hs⟩ | ⟨hnofit, hfb⟩
    · subst hs
      exact absurd hb (nosame _)
    · rcases fb hfb hb hr with h1 | h1
      · rw [wadd_of_lt (by omega)] at hnofit
        omega
      · omega

/-- C18 witness: `Allocate(1000)` on a state with 96 bytes left discards those
96 bytes. -/
theorem C18_bounded_waste_witness :
    target64.Valid ∧ 0 < 1000 ∧
    Arena.Allocate target64 bumpSource ⟨4016, 96, [⟨16, 4096⟩], 4104⟩ 1000
      = some (65808, ⟨66808, 3096, [⟨16, 4096⟩, ⟨65808, 4096⟩], 8208⟩) ∧
    ((96 : Nat) < 1000 ∧ (96 : Nat) ≤ 1023) :=
  ⟨target64_valid, by decide, by decide,
    (C18_bounded_waste target64_valid bumpSource ⟨4016, 96, [⟨16, 4096⟩], 4104⟩
      ⟨66808, 3096, [⟨16, 4096⟩, ⟨65808, 4096⟩], 8208⟩ 1000 65808 (by decide)).1
      (by decide) (by decide) (by decide) (by decide)⟩

/-- C19: `Allocate` and `AllocateAligned` coincide on an aligned cursor. For
every state whose cursor address is a multiple of
`align = max(sizeof(void*), 8)` (the null cursor of a fresh arena included) and
every `size > 0` (a `size_t`), with a memory source returning aligned blocks,
`AllocateAligned(size)` and `Allocate(size)` return the same address and leave
the same state: cursor, remaining capacity, block list and usage counter. -/
theorem C19_aligned_cursor_coincide {t : Target} (hv : t.Valid) (src : MemorySource)
    (hal : AlignedSource t src) (s : Arena) (size : Nat)
    (hcur : s.alloc_ptr_ % Arena.align t = 0) (hpos : 0 < size) (hlt : size < t.wordMod) :
    s.AllocateAligned t src size = s.Allocate t src size ∧
    ∃ p s1, s.Allocate t src size = some (p, s1) := by
  have hslop : Arena.slop t s.alloc_ptr_ = 0 := by
    rw [hv.slop_eq, hcur, Nat.sub_zero, Nat.mod_self]
  have hneed : wadd t size (Arena.slop t s.alloc_ptr_) = size := by
    rw [hslop, wadd_of_lt (by omega)]
    rfl
  by_cases hfit : size ≤ s.alloc_bytes_remaining_
  · refine ⟨?_, _, _, Arena.Allocate_fit t src s size hpos hfit⟩
    rw [Arena.AllocateAligned_fit hv src s size (by rw [hneed]; exact hfit),
      Arena.Allocate_fit t src s size hpos hfit, hneed, hslop]
    rfl
  · refine ⟨?_, _, _, Arena.Allocate_nofit t src s size hpos (by omega)⟩
    have hfb : (s.AllocateFallback t src size).1 % Arena.align t = 0 := by
      by_cases hbig : 1024 < size
      · rw [Arena.AllocateFallback_big hv src s size hbig]
        exact hal _ _
      · rw [Arena.AllocateFallback_small hv src s size (by omega)]
        exact hal _ _
    rw [Arena.AllocateAligned_nofit hv src s size (by rw [hneed]; omega) hfb,
      Arena.Allocate_nofit t src s size hpos (by omega)]

/-- C19 witness: a 24-byte request on a state whose cursor 120 is a multiple
of 8. -/
theorem C19_aligned_cursor_coincide_witness :
    target64.Valid ∧ AlignedSource target64 bumpSource ∧
    120 % Arena.align target64 = 0 ∧ 0 < 24 ∧ 24 < target64.wordMod ∧
    Arena.AllocateAligned target64 bumpSource ⟨120, 3992, [⟨16, 4096⟩], 4104⟩ 24
      = Arena.Allocate target64 bumpSource ⟨120, 3992, [⟨16, 4096⟩], 4104⟩ 24 :=
  ⟨target64_valid, bumpSource_aligned64, by decide, by decide, by decide,
    (C19_aligned_cursor_coincide target64_valid bumpSource bumpSource_aligned64
      ⟨120, 3992, [⟨16, 4096⟩], 4104⟩ 24 (by decide) (by decide) (by decide)).1⟩

end leveldb
